import Mathlib

/-!
Verification development for the font resolution and caching subsystem of the
flyingshelf-photographer rendering service (source: the dynamic font loader
module, `downloadAndRegisterFont` and its helpers).

The JavaScript/TypeScript source is shallowly embedded:
* strings are lists of characters (`Str`);
* the module-level mutable maps (`downloadedFonts`, `failedFonts`,
  `downloadingFonts`, `cssCache`, `fontMetadataCache`) become fields of an
  explicit `LoaderState`;
* network and filesystem collaborators become oracles in an `Env`;
* `async` functions become computations in a state-and-exception monad `M`,
  recording a trace of external-effect events;
* the promise-level singleflight machinery of `downloadAndRegisterFont` is
  additionally modelled as an interleaving-level step system (`prologueStep`,
  `completeStep`), since the JavaScript prologue up to `downloadingFonts.set`
  runs atomically (it contains no suspension point).
-/

/-- Characters of a JavaScript string. -/
abbrev Str := List Char

/-- ASCII whitespace, standing in for the JavaScript `\s` class / `trim`. -/
def isWsChar (c : Char) : Bool :=
  c = ' ' || c = '\t' || c = '\n' || c = '\r' || c = Char.ofNat 11 || c = Char.ofNat 12

/-- JavaScript `String.prototype.trim` (ASCII fragment). -/
def trimL (s : Str) : Str :=
  ((s.dropWhile isWsChar).reverse.dropWhile isWsChar).reverse

/-- Everything before the first comma: `s.split(',')[0]`. -/
def takeBeforeComma (s : Str) : Str :=
  s.takeWhile (fun c => !(c = ','))

/-- JavaScript `toLowerCase` (ASCII fragment). -/
def lowerL (s : Str) : Str := s.map Char.toLower

/-- Membership in a list of strings (JavaScript `Set.has`). -/
def elemS : List Str → Str → Bool
  | [], _ => false
  | x :: t, k => if x = k then true else elemS t k

/-- The name cleaning used throughout the loader: `fontName.split(',')[0].trim()`. -/
def cleanName (s : Str) : Str := trimL (takeBeforeComma s)

/-- Does `s` start with `p`. -/
def startsWithL : Str → Str → Bool
  | _, [] => true
  | [], _ :: _ => false
  | c :: cs, p :: ps => c = p && startsWithL cs ps

/-- Does `s` end with `p` (stated by dropping the head of `s`). -/
def endsWithL (s p : Str) : Bool :=
  decide (p.length ≤ s.length) && (s.drop (s.length - p.length) == p)

/-- JavaScript `String.prototype.includes`. -/
def containsSub : Str → Str → Bool
  | [], pat => startsWithL [] pat
  | s@(_ :: cs), pat => startsWithL s pat || containsSub cs pat

/-- One step of `replace(/[^a-zA-Z0-9-_]/g, '-')`. -/
def sanitizeChar (c : Char) : Char :=
  if c.isAlpha || c.isDigit || c = '-' || c = '_' then c else '-'

/-- JavaScript `replace(/[^a-zA-Z0-9-_]/g, '-')`. -/
def sanitizeName (s : Str) : Str := s.map sanitizeChar

/-- JavaScript `replace(/['"]/g, '')`: drop single and double quotes. -/
def stripQuotes (s : Str) : Str :=
  s.filter (fun c => !(c = '"' || c = Char.ofNat 39))

mutual

/-- JavaScript `replace(/\s+/g, rep)`: collapse each maximal whitespace run. -/
def collapseWsTo (rep : Char) : Str → Str
  | [] => []
  | c :: cs => if isWsChar c then rep :: collapseSkipWs rep cs else c :: collapseWsTo rep cs

/-- Helper of `collapseWsTo`: currently inside a whitespace run. -/
def collapseSkipWs (rep : Char) : Str → Str
  | [] => []
  | c :: cs => if isWsChar c then collapseSkipWs rep cs else c :: collapseWsTo rep cs

end

/-- The fixed generic/system font family set skipped by `downloadAndRegisterFont`. -/
def genericFontFamilies : List Str :=
  [ "serif".data, "sans-serif".data, "monospace".data, "cursive".data, "fantasy".data,
    "system-ui".data, "ui-serif".data, "ui-sans-serif".data, "ui-monospace".data,
    "ui-rounded".data, "emoji".data, "math".data, "fangsong".data,
    "arial".data, "helvetica".data, "times new roman".data, "times".data,
    "courier new".data, "courier".data, "verdana".data, "georgia".data, "tahoma".data,
    "garamond".data, "impact".data, "sans".data ]

/-- The generic-family test applied to the source argument:
`genericFontFamilies.has(fontUrlOrName.split(',')[0].trim().toLowerCase())`. -/
def isGeneric (src : Str) : Bool :=
  genericFontFamilies.contains (lowerL (cleanName src))

/-- File extension inference of `downloadCustomFont`:
`fontUrl.match(/\.(ttf|otf|woff|woff2)$/i)`, defaulting to `ttf`. The capture
keeps the original case of the URL's suffix. -/
def extOf (url : Str) : Str :=
  let lu := lowerL url
  if endsWithL lu ".woff2".data then url.drop (url.length - 5)
  else if endsWithL lu ".woff".data then url.drop (url.length - 4)
  else if endsWithL lu ".ttf".data then url.drop (url.length - 3)
  else if endsWithL lu ".otf".data then url.drop (url.length - 3)
  else "ttf".data

/-- Path concatenation, standing in for node's `path.join`. -/
def pathJoin (a b : Str) : Str := a ++ "/".data ++ b

/-- The runtime font cache directory (`path.join(process.cwd(), '.fonts-cache')`). -/
def FONTS_CACHE_DIR : Str := ".fonts-cache".data

/-- The Docker-build pre-built fonts directory. -/
def PREBUILT_FONTS_DIR : Str := "/usr/share/fonts/truetype/google-fonts".data

/-- The manifest-metadata cache TTL: 24 hours in milliseconds. -/
def CACHE_TTL : Nat := 1000 * 60 * 60 * 24

/-! ### Manifest parser: `parseTTFUrlsFromCSS`

The source extracts (weight, url) pairs from a fetched CSS manifest with three
ordered regex strategies sharing one `seenWeights` set.  Each regex is embedded
as a deterministic leftmost-match scanner over the character list. -/

/-- A parsed variant: a weight string paired with a download URL. -/
structure WUrl where
  weight : Str
  url : Str
deriving DecidableEq, Repr

/-- Drop a literal: `some` of the remainder when `s` starts with `lit`. -/
def dropLit (lit s : Str) : Option Str :=
  if startsWithL s lit then some (s.drop lit.length) else none

/-- Greedy `\s*`. -/
def dropWs (s : Str) : Str := s.dropWhile isWsChar

/-- Content of `url(...)`: the span up to the first close paren, which the
regexes require to be terminated by a close paren. -/
def spanToParen (s : Str) : Option (Str × Str) :=
  let content := s.takeWhile (fun c => !(c = ')'))
  match s.drop content.length with
  | ')' :: r => some (content, r)
  | _ => none

/-- The host the regexes anchor on: a literal in every URL capture. -/
def gstaticHead : Str := "https://fonts.gstatic.com/".data

/-- Match of the sub-pattern `src:\s*url\((https:...gstatic...[^)]+\.ttf)\)`
at the head of `s`; returns the captured URL and the remainder. -/
def matchSrcTtf (s : Str) : Option (Str × Str) :=
  match dropLit "src:".data s with
  | none => none
  | some s1 =>
    match dropLit "url(".data (dropWs s1) with
    | none => none
    | some s3 =>
      match spanToParen s3 with
      | none => none
      | some (content, rest) =>
        if startsWithL content gstaticHead && endsWithL content ".ttf".data
            && decide (gstaticHead.length + 4 < content.length) then
          some (content, rest)
        else none

/-- Leftmost occurrence of `matchSrcTtf` in `s` (the lazy `[\s\S]*?` gap of
pattern 1 selects the earliest position where the src part matches). -/
def findSrcTtf : Nat → Str → Option (Str × Str)
  | 0, _ => none
  | fuel + 1, s =>
    match matchSrcTtf s with
    | some r => some r
    | none =>
      match s with
      | [] => none
      | _ :: cs => findSrcTtf fuel cs

/-- Match of pattern 1 at the head of `s`:
`font-weight:\s*(\d+);[\s\S]*?src:\s*url\((...ttf)\)`. -/
def matchWeightTtfAt (s : Str) : Option (Str × Str × Str) :=
  match dropLit "font-weight:".data s with
  | none => none
  | some s1 =>
    let s2 := dropWs s1
    let w := s2.takeWhile Char.isDigit
    if w.isEmpty then none
    else
      match dropLit ";".data (s2.drop w.length) with
      | none => none
      | some s3 =>
        match findSrcTtf (s3.length + 1) s3 with
        | none => none
        | some (u, rest) => some (w, u, rest)

/-- The `exec` loop of pattern 1: repeated leftmost match, continuing after
each match end, with the shared weight dedup set. -/
def scanP1go : Nat → Str → List WUrl → List Str → List WUrl × List Str
  | 0, _, acc, seen => (acc, seen)
  | fuel + 1, s, acc, seen =>
    match matchWeightTtfAt s with
    | some (w, u, rest) =>
      if elemS seen w then scanP1go fuel rest acc seen
      else scanP1go fuel rest (acc ++ [⟨w, u⟩]) (seen ++ [w])
    | none =>
      match s with
      | [] => (acc, seen)
      | _ :: cs => scanP1go fuel cs acc seen

/-- Pattern 1 scan over a whole manifest, from given accumulator state. -/
def scanP1From (css : Str) (acc : List WUrl) (seen : List Str) : List WUrl × List Str :=
  scanP1go (css.length + 1) css acc seen

/-- Quote character class `['"]`. -/
def quoteChar (c : Char) : Bool := c = '"' || c = Char.ofNat 39

/-- Match of pattern 2 at the head of `s`:
`src:\s*url\((...ttf)\)\s*format\(['"]truetype['"]\)`. -/
def matchTruetypeAt (s : Str) : Option (Str × Str) :=
  match matchSrcTtf s with
  | none => none
  | some (content, rest) =>
    match dropLit "format(".data (dropWs rest) with
    | none => none
    | some r2 =>
      match r2 with
      | [] => none
      | q1 :: r3 =>
        if quoteChar q1 then
          match dropLit "truetype".data r3 with
          | none => none
          | some r4 =>
            match r4 with
            | [] => none
            | q2 :: r5 =>
              if quoteChar q2 then
                match dropLit ")".data r5 with
                | none => none
                | some r6 => some (content, r6)
              else none
        else none

/-- The assumed default weight sequence of pattern 2. -/
def wseq : List Str := ["300".data, "400".data, "700".data]

/-- The `exec` loop of pattern 2: ordered truetype URLs paired with
`weights[index] || '400'`, the index advancing on every match. -/
def scanP2go : Nat → Str → List WUrl → List Str → Nat → List WUrl × List Str
  | 0, _, acc, seen, _ => (acc, seen)
  | fuel + 1, s, acc, seen, idx =>
    match matchTruetypeAt s with
    | some (u, rest) =>
      let w := wseq.getD idx "400".data
      if elemS seen w then scanP2go fuel rest acc seen (idx + 1)
      else scanP2go fuel rest (acc ++ [⟨w, u⟩]) (seen ++ [w]) (idx + 1)
    | none =>
      match s with
      | [] => (acc, seen)
      | _ :: cs => scanP2go fuel cs acc seen idx

/-- Pattern 2 scan over a whole manifest, from given accumulator state. -/
def scanP2From (css : Str) (acc : List WUrl) (seen : List Str) : List WUrl × List Str :=
  scanP2go (css.length + 1) css acc seen 0

/-- Split on a literal substring, JavaScript `String.prototype.split`. -/
def splitOnSubGo : Nat → Str → Str → Str → List Str
  | 0, _, s, cur => [cur.reverse ++ s]
  | _ + 1, _, [], cur => [cur.reverse]
  | fuel + 1, pat, s@(c :: cs), cur =>
    if !(pat == []) && startsWithL s pat then
      cur.reverse :: splitOnSubGo fuel pat (s.drop pat.length) []
    else
      splitOnSubGo fuel pat cs (c :: cur)

/-- JavaScript `s.split(pat)` for a non-empty literal `pat`. -/
def splitOnSub (pat s : Str) : List Str := splitOnSubGo (s.length + 1) pat s []

/-- First match of `font-weight:\s*(\d+)` in a section (pattern 3). -/
def findWeightNum : Nat → Str → Option Str
  | 0, _ => none
  | fuel + 1, s =>
    match dropLit "font-weight:".data s with
    | some s1 =>
      let w := (dropWs s1).takeWhile Char.isDigit
      if w.isEmpty then
        match s with
        | [] => none
        | _ :: cs => findWeightNum fuel cs
      else some w
    | none =>
      match s with
      | [] => none
      | _ :: cs => findWeightNum fuel cs

/-- Match of `url\((https:...gstatic...[^)]+\.woff2)\)` at the head of `s`. -/
def matchWoff2At (s : Str) : Option Str :=
  match dropLit "url(".data s with
  | none => none
  | some s1 =>
    match spanToParen s1 with
    | none => none
    | some (content, _) =>
      if startsWithL content gstaticHead && endsWithL content ".woff2".data
          && decide (gstaticHead.length + 6 < content.length) then
        some content
      else none

/-- First woff2 URL occurrence in a section (pattern 3). -/
def findWoff2 : Nat → Str → Option Str
  | 0, _ => none
  | fuel + 1, s =>
    match matchWoff2At s with
    | some u => some u
    | none =>
      match s with
      | [] => none
      | _ :: cs => findWoff2 fuel cs

/-- The woff2-to-ttf URL rewrite: `replace(/\.woff2$/, '.ttf')`. -/
def woff2ToTtf (u : Str) : Str := u.take (u.length - 6) ++ ".ttf".data

/-- Pattern 3's subset filter: process a section only when it declares no
unicode range at all or declares the latin range marker. -/
def sectionOkForLatin (sec : Str) : Bool :=
  !(containsSub sec "unicode-range".data) || containsSub sec "U+0000-00FF".data

/-- The section loop of pattern 3 over the `@font-face` split. -/
def scanP3Sections : List Str → List WUrl → List Str → List WUrl × List Str
  | [], acc, seen => (acc, seen)
  | sec :: rest, acc, seen =>
    if sectionOkForLatin sec then
      match findWeightNum (sec.length + 1) sec, findWoff2 (sec.length + 1) sec with
      | some w, some u =>
        if elemS seen w then scanP3Sections rest acc seen
        else scanP3Sections rest (acc ++ [⟨w, woff2ToTtf u⟩]) (seen ++ [w])
      | _, _ => scanP3Sections rest acc seen
    else scanP3Sections rest acc seen

/-- Pattern 3 scan over a whole manifest, from given accumulator state. -/
def scanP3From (css : Str) (acc : List WUrl) (seen : List Str) : List WUrl × List Str :=
  scanP3Sections (splitOnSub "@font-face".data css) acc seen

/-- Strategy (a) run on its own: explicit weight + direct TTF URL pairs. -/
def strategy1 (css : Str) : List WUrl := (scanP1From css [] []).1

/-- Strategy (b) run on its own: ordered truetype URLs with default weights. -/
def strategy2 (css : Str) : List WUrl := (scanP2From css [] []).1

/-- Strategy (c) run on its own: latin-subset woff2-to-ttf rewrite. -/
def strategy3 (css : Str) : List WUrl := (scanP3From css [] []).1

/-- The full parser: the three strategies share the `seenWeights` set, and
patterns 2 and 3 are gated on the accumulated list being empty so far. -/
def parseTTFUrlsFromCSS (css : Str) : List WUrl :=
  let p1 := scanP1From css [] []
  let p2 := if p1.1.length == 0 then scanP2From css p1.1 p1.2 else p1
  let p3 := if p2.1.length == 0 then scanP3From css p2.1 p2.2 else p2
  p3.1

/-! ### The loader model

State, oracles, and a state-and-exception monad `M` in which the `async`
functions of the source are embedded.  JavaScript exceptions become the
`Except.error` component; state mutations performed before a throw persist,
matching JavaScript semantics. -/

/-- A network response: `ok`/`status` from `fetch`, the body as text and as a
byte length, and whether the body bytes load as a valid font. -/
structure Response where
  ok : Bool
  status : Nat
  text : Str
  byteLength : Nat
  validFont : Bool
deriving DecidableEq, Repr

/-- A file on disk: its byte size and whether it loads as a valid font. -/
structure FileInfo where
  size : Nat
  valid : Bool
deriving DecidableEq, Repr

/-- A `fontMetadataCache` entry: variant URLs plus the fetch timestamp. -/
structure MetaE where
  urls : List WUrl
  timestamp : Nat
deriving DecidableEq, Repr

/-- The filesystem and the process-global font registry. -/
structure World where
  files : List (Str × FileInfo)
  registered : List (Str × Str)
  prebuiltDirExists : Bool
  cacheDirExists : Bool
deriving DecidableEq, Repr

/-- The module-level mutable maps of the loader. -/
structure LoaderState where
  downloadedFonts : List (Str × Str)
  failedFonts : List Str
  downloadingFonts : List (Str × Nat)
  cssCache : List (Str × Str)
  fontMetadataCache : List (Str × MetaE)
deriving DecidableEq, Repr

/-- External-effect events recorded in the run trace. -/
inductive Ev where
  | fetch (url : Str)
  | fsMkdir
  | fsWrite (p : Str)
  | fsUnlink (p : Str)
  | fsReaddir (d : Str)
  | fsStat (p : Str)
  | reg (p nm : Str)
deriving DecidableEq, Repr

/-- The full mutable state threaded through a run. -/
structure St where
  world : World
  loader : LoaderState
  trace : List Ev
  fetchCount : Nat
  fsCount : Nat
  nextId : Nat
deriving DecidableEq, Repr

/-- Oracles for the collaborators: the network (indexed by the global fetch
attempt counter), filesystem-call failures (indexed by the fs-op counter:
`none` means the call succeeds), and the clock. -/
structure Env where
  fetchE : Nat → Str → Except Str Response
  fsE : Nat → Option Str
  now : Nat

deriving instance DecidableEq for Except

/-- The modelling monad: state plus JavaScript exceptions. -/
def M (α : Type) : Type := Env → St → Except Str α × St

/-- Monadic return for `M`. -/
def Mpure {α : Type} (a : α) : M α := fun _ s => (Except.ok a, s)

/-- Monadic bind for `M`: an exception skips the continuation. -/
def Mbind {α β : Type} (m : M α) (f : α → M β) : M β := fun env s =>
  match m env s with
  | (Except.ok a, s1) => f a env s1
  | (Except.error e, s1) => (Except.error e, s1)

instance : Monad M where
  pure := Mpure
  bind := Mbind

/-- Read the state. -/
def getS : M St := fun _ s => (Except.ok s, s)

/-- Update the state. -/
def modifyS (f : St → St) : M Unit := fun _ s => (Except.ok (), f s)

/-- Read the oracles. -/
def readE : M Env := fun env s => (Except.ok env, s)

/-- Raise a JavaScript exception. -/
def mthrow {α : Type} (e : Str) : M α := fun _ s => (Except.error e, s)

/-- JavaScript `try`/`catch`. -/
def tryCatchM {α : Type} (m : M α) (h : Str → M α) : M α := fun env s =>
  match m env s with
  | (Except.ok a, s1) => (Except.ok a, s1)
  | (Except.error e, s1) => h e env s1

/-- Association-list lookup (JavaScript `Map.get`). -/
def lookupA {α : Type} : List (Str × α) → Str → Option α
  | [], _ => none
  | (k1, v1) :: t, k => if k1 = k then some v1 else lookupA t k

/-- Association-list update (JavaScript `Map.set`: replace in place or append). -/
def insertA {α : Type} : List (Str × α) → Str → α → List (Str × α)
  | [], k, v => [(k, v)]
  | (k1, v1) :: t, k, v => if k1 = k then (k, v) :: t else (k1, v1) :: insertA t k v

/-- Association-list removal (JavaScript `Map.delete`). -/
def eraseA {α : Type} : List (Str × α) → Str → List (Str × α)
  | [], _ => []
  | (k1, v1) :: t, k => if k1 = k then eraseA t k else (k1, v1) :: eraseA t k

/-- Set insertion (JavaScript `Set.add`). -/
def addSet (l : List Str) (k : Str) : List Str :=
  if elemS l k then l else l ++ [k]

/-- One network attempt: records the event, bumps the attempt counter, and
returns or throws what the oracle dictates. -/
def fetchOnce (url : Str) : M Response := fun env s =>
  let s1 : St := { s with trace := s.trace ++ [Ev.fetch url], fetchCount := s.fetchCount + 1 }
  match env.fetchE s.fetchCount url with
  | Except.ok r => (Except.ok r, s1)
  | Except.error e => (Except.error e, s1)

/-- The retry loop of `fetchWithRetry`: a thrown attempt is retried, the last
attempt's exception propagates.  A non-2xx response is returned, not retried. -/
def fetchAttempts : Nat → Str → M Response
  | 0, _ => mthrow "All fetch attempts failed".data
  | 1, url => fetchOnce url
  | n + 2, url => tryCatchM (fetchOnce url) (fun _ => fetchAttempts (n + 1) url)

/-- The source's `fetchWithRetry(url)` with its default of 3 retries. -/
def fetchWithRetry (url : Str) : M Response := fetchAttempts 3 url

/-- The `mkdir(FONTS_CACHE_DIR, { recursive: true })` call. -/
def mkdirCache : M Unit := fun env s =>
  let s1 : St := { s with trace := s.trace ++ [Ev.fsMkdir], fsCount := s.fsCount + 1 }
  match env.fsE s.fsCount with
  | some e => (Except.error e, s1)
  | none => (Except.ok (), { s1 with world := { s1.world with cacheDirExists := true } })

/-- The `writeFile` call. -/
def writeF (p : Str) (fi : FileInfo) : M Unit := fun env s =>
  let s1 : St := { s with trace := s.trace ++ [Ev.fsWrite p], fsCount := s.fsCount + 1 }
  match env.fsE s.fsCount with
  | some e => (Except.error e, s1)
  | none => (Except.ok (), { s1 with world := { s1.world with files := insertA s1.world.files p fi } })

/-- The `unlink` call; throws on a missing path. -/
def unlinkF (p : Str) : M Unit := fun env s =>
  let s1 : St := { s with trace := s.trace ++ [Ev.fsUnlink p], fsCount := s.fsCount + 1 }
  match env.fsE s.fsCount with
  | some e => (Except.error e, s1)
  | none =>
    match lookupA s1.world.files p with
    | none => (Except.error "ENOENT".data, s1)
    | some _ => (Except.ok (), { s1 with world := { s1.world with files := eraseA s1.world.files p } })

/-- File names directly under a directory. -/
def filesUnder (files : List (Str × FileInfo)) (d : Str) : List Str :=
  (files.filter (fun kv => startsWithL kv.1 (d ++ "/".data))).map
    (fun kv => kv.1.drop (d.length + 1))

/-- The `readdir` call on one of the two known directories. -/
def readdirD (d : Str) : M (List Str) := fun env s =>
  let s1 : St := { s with trace := s.trace ++ [Ev.fsReaddir d], fsCount := s.fsCount + 1 }
  match env.fsE s.fsCount with
  | some e => (Except.error e, s1)
  | none =>
    if (d == PREBUILT_FONTS_DIR && s.world.prebuiltDirExists)
        || (d == FONTS_CACHE_DIR && s.world.cacheDirExists) then
      (Except.ok (filesUnder s.world.files d), s1)
    else (Except.error "ENOENT".data, s1)

/-- The `stat` call; returns the byte size. -/
def statSizeF (p : Str) : M Nat := fun env s =>
  let s1 : St := { s with trace := s.trace ++ [Ev.fsStat p], fsCount := s.fsCount + 1 }
  match env.fsE s.fsCount with
  | some e => (Except.error e, s1)
  | none =>
    match lookupA s1.world.files p with
    | some fi => (Except.ok fi.size, s1)
    | none => (Except.error "ENOENT".data, s1)

/-- The `GlobalFonts.registerFromPath(path, name)` call: succeeds exactly when
the path holds a valid font file, and then records the (path, alias) pair. -/
def registerPath (p nm : Str) : M Unit := fun _ s =>
  let s1 : St := { s with trace := s.trace ++ [Ev.reg p nm] }
  match lookupA s.world.files p with
  | some fi =>
    if fi.valid then
      (Except.ok (), { s1 with world := { s1.world with registered := s1.world.registered ++ [(p, nm)] } })
    else (Except.error "invalid font file".data, s1)
  | none => (Except.error "no such font file".data, s1)

/-- The `existsSync` check on a file path (effect-free, never throws). -/
def existsF (p : Str) : M Bool := fun _ s =>
  (Except.ok (lookupA s.world.files p).isSome, s)

/-- Update just the loader maps. -/
def modLoader (f : LoaderState → LoaderState) : M Unit :=
  modifyS (fun s => { s with loader := f s.loader })

/-- The `downloadedFonts.set(name, path)` call. -/
def setDownloaded (k v : Str) : M Unit :=
  modLoader (fun L => { L with downloadedFonts := insertA L.downloadedFonts k v })

/-- The `failedFonts.add(name)` call. -/
def addFailedFont (k : Str) : M Unit :=
  modLoader (fun L => { L with failedFonts := addSet L.failedFonts k })

/-! ### The tier functions -/

/-- Does a file name carry the Docker-build hash suffix `-[a-f0-9]{8}.ttf`
(case-insensitively)? -/
def isHexDigit (c : Char) : Bool :=
  c.isDigit || (97 ≤ c.toNat && c.toNat ≤ 102) || (65 ≤ c.toNat && c.toNat ≤ 70)

/-- Test for the trailing `-[a-f0-9]{8}\.ttf` (with the `/i` flag). -/
def hashSuffixMatch (f : Str) : Bool :=
  decide (13 ≤ f.length) &&
    (match f.drop (f.length - 13) with
     | '-' :: rest => (rest.take 8).all isHexDigit && lowerL (rest.drop 8) == ".ttf".data
     | _ => false)

/-- The hash-suffix strip of the prebuilt tier: drop a trailing
`-hhhhhhhh.ttf` (8 hex digits, case-insensitive) from a file name. -/
def stripHashTtf (f : Str) : Str :=
  if hashSuffixMatch f then f.take (f.length - 13) else f

/-- Register/stat loop of the prebuilt tier: per file, a failed registration
is skipped (not counted), a failed stat after a successful registration is
swallowed but still counted, mirroring the in-loop `try`/`catch`. -/
def prebuiltLoop (fontName : Str) : List Str → M Nat
  | [] => pure 0
  | f :: rest => do
    let r ← tryCatchM
      (do
        registerPath (pathJoin PREBUILT_FONTS_DIR f) fontName
        pure 1)
      (fun _ => pure 0)
    if r == 1 then
      tryCatchM
        (do
          let _ ← statSizeF (pathJoin PREBUILT_FONTS_DIR f)
          pure ())
        (fun _ => pure ())
    else pure ()
    let n ← prebuiltLoop fontName rest
    pure (r + n)

/-- The source's `tryLoadPrebuiltFont(fontName)`. -/
def tryLoadPrebuiltFont (fontName : Str) : M Bool := do
  let s ← getS
  if !s.world.prebuiltDirExists then pure false
  else
    tryCatchM
      (do
        let safeFilename := collapseWsTo '-' fontName
        let files ← readdirD PREBUILT_FONTS_DIR
        let fontFiles := files.filter (fun f =>
          lowerL (stripHashTtf f) == lowerL safeFilename && endsWithL f ".ttf".data)
        if fontFiles.length == 0 then pure false
        else do
          let registered ← prebuiltLoop fontName fontFiles
          if 0 < registered then do
            setDownloaded fontName PREBUILT_FONTS_DIR
            pure true
          else pure false)
      (fun _ => pure false)

/-- The `cssCache` key of `fetchGoogleFontCSS` with the default weights. -/
def cssCacheKey (fontFamily : Str) : Str := fontFamily ++ ":300,400,500,700".data

/-- The css2 endpoint with explicit weights (first in the fallback order). -/
def cssUrl1 (fontFamily : Str) : Str :=
  "https://fonts.googleapis.com/css2?family=".data ++ fontFamily
    ++ ":wght@300;400;500;700&display=swap".data

/-- The legacy css endpoint (second in the fallback order). -/
def cssUrl2 (fontFamily : Str) : Str :=
  "https://fonts.googleapis.com/css?family=".data ++ fontFamily
    ++ ":300,400,500,700&display=swap".data

/-- The css2 endpoint without weights (third in the fallback order). -/
def cssUrl3 (fontFamily : Str) : Str :=
  "https://fonts.googleapis.com/css2?family=".data ++ fontFamily ++ "&display=swap".data

/-- The endpoint loop of `fetchGoogleFontCSS`: accept the first response that
is `ok` and contains a font-face declaration; cache it under the css key. -/
def fetchCSSLoop (cacheKey : Str) : List Str → M (Option Str)
  | [] => pure none
  | url :: rest => do
    let r ← tryCatchM
      (do
        let resp ← fetchWithRetry url
        if resp.ok && containsSub resp.text "font-face".data then do
          modLoader (fun L => { L with cssCache := insertA L.cssCache cacheKey resp.text })
          pure (some resp.text)
        else pure none)
      (fun _ => pure none)
    match r with
    | some css => pure (some css)
    | none => fetchCSSLoop cacheKey rest

/-- The source's `fetchGoogleFontCSS(fontFamily)` (default weights). -/
def fetchGoogleFontCSS (fontFamily : Str) : M (Option Str) := do
  let s ← getS
  match lookupA s.loader.cssCache (cssCacheKey fontFamily) with
  | some css => pure (some css)
  | none =>
    fetchCSSLoop (cssCacheKey fontFamily)
      [cssUrl1 fontFamily, cssUrl2 fontFamily, cssUrl3 fontFamily]

/-- The on-disk path of a weight variant: `safe(name)-<weight>.ttf`. -/
def variantPath (safeFilename weight : Str) : Str :=
  pathJoin FONTS_CACHE_DIR (safeFilename ++ "-".data ++ weight ++ ".ttf".data)

/-- One variant download of `downloadGoogleFontDirect` (per-variant lambda):
a valid cached file is registered without network; a corrupt cached file is
deleted and re-fetched; undersized payloads (< 10000 bytes) are rejected. -/
def downloadVariantG (fontName safeFilename : Str) (wu : WUrl) : M Bool := do
  let vp := variantPath safeFilename wu.weight
  let ex ← existsF vp
  let cachedOk ←
    if ex then
      tryCatchM
        (do
          registerPath vp fontName
          pure true)
        (fun _ => do
          tryCatchM (unlinkF vp) (fun _ => pure ())
          pure false)
    else pure false
  if cachedOk then pure true
  else
    tryCatchM
      (do
        let resp ← fetchWithRetry wu.url
        if !resp.ok then pure false
        else if resp.byteLength < 10000 then pure false
        else do
          writeF vp ⟨resp.byteLength, resp.validFont⟩
          registerPath vp fontName
          pure true)
      (fun _ => pure false)

/-- The `Promise.allSettled` variant loop of `downloadGoogleFontDirect`,
sequentialized; returns the success count. -/
def downloadVariantsG (fontName safeFilename : Str) : List WUrl → M Nat
  | [] => pure 0
  | wu :: rest => do
    let b ← downloadVariantG fontName safeFilename wu
    let n ← downloadVariantsG fontName safeFilename rest
    pure ((if b then 1 else 0) + n)

/-- The metadata-cache consultation of `downloadGoogleFontDirect`: a fresh
entry supplies its variant-URL list; a stale entry (age at least the TTL) is
deleted and treated as a cache miss (the empty list). -/
def metaConsult (fontName : Str) : M (List WUrl) := do
  let env ← readE
  let s ← getS
  match lookupA s.loader.fontMetadataCache fontName with
  | some me =>
    if env.now - me.timestamp < CACHE_TTL then pure me.urls
    else do
      modLoader (fun L =>
        { L with fontMetadataCache := eraseA L.fontMetadataCache fontName })
      pure ([] : List WUrl)
  | none => pure ([] : List WUrl)

/-- The manifest phase of `downloadGoogleFontDirect`: consult the metadata
cache (TTL-gated, deleting a stale entry), otherwise fetch and parse the CSS
manifest and cache the parsed variant list with its timestamp. -/
def googleGetUrls (fontName fontFamily : Str) : M (Option (List WUrl)) := do
  let env ← readE
  let ttfUrls0 ← metaConsult fontName
  if ttfUrls0.length == 0 then do
    let cssOpt ← fetchGoogleFontCSS fontFamily
    match cssOpt with
    | none => pure (none : Option (List WUrl))
    | some css =>
      let parsed := parseTTFUrlsFromCSS css
      if parsed.length == 0 then pure (none : Option (List WUrl))
      else do
        modLoader (fun L =>
          { L with fontMetadataCache :=
              insertA L.fontMetadataCache fontName ⟨parsed, env.now⟩ })
        pure (some parsed)
  else pure (some ttfUrls0)

/-- The download phase of `downloadGoogleFontDirect`: bootstrap the cache
directory, run all variant downloads, and on at least one success memoize the
`-400.ttf` path for the font. -/
def googleDownloadPhase (fontName safeFilename : Str) (urls : List WUrl) : M Bool := do
  mkdirCache
  let successCount ← downloadVariantsG fontName safeFilename urls
  if 0 < successCount then do
    setDownloaded fontName (pathJoin FONTS_CACHE_DIR (safeFilename ++ "-400.ttf".data))
    pure true
  else pure false

/-- The source's `downloadGoogleFontDirect(fontName)`. -/
def downloadGoogleFontDirect (fontName : Str) : M Bool :=
  tryCatchM
    (do
      let cleanNameForApi := stripQuotes fontName
      let safeFilename := sanitizeName cleanNameForApi
      let fontFamily := collapseWsTo '+' cleanNameForApi
      let urlsOpt ← googleGetUrls fontName fontFamily
      match urlsOpt with
      | none => pure false
      | some urls => googleDownloadPhase fontName safeFilename urls)
    (fun _ => pure false)

/-- One variant download of `downloadFontFromCSSUrl` (threshold 1000 bytes). -/
def downloadVariantC (fontName safeFilename : Str) (wu : WUrl) : M Bool := do
  let vp := variantPath safeFilename wu.weight
  let ex ← existsF vp
  let cachedOk ←
    if ex then
      tryCatchM
        (do
          registerPath vp fontName
          pure true)
        (fun _ => do
          tryCatchM (unlinkF vp) (fun _ => pure ())
          pure false)
    else pure false
  if cachedOk then pure true
  else
    tryCatchM
      (do
        let resp ← fetchWithRetry wu.url
        if !resp.ok then pure false
        else if resp.byteLength < 1000 then pure false
        else do
          writeF vp ⟨resp.byteLength, resp.validFont⟩
          registerPath vp fontName
          pure true)
      (fun _ => pure false)

/-- The `Promise.all` variant loop of `downloadFontFromCSSUrl`. -/
def downloadVariantsC (fontName safeFilename : Str) : List WUrl → M Nat
  | [] => pure 0
  | wu :: rest => do
    let b ← downloadVariantC fontName safeFilename wu
    let n ← downloadVariantsC fontName safeFilename rest
    pure ((if b then 1 else 0) + n)

/-- The manifest-text phase of `downloadFontFromCSSUrl`: the css cache, or
one fetch of the given CSS URL. -/
def cssGetText (cssUrl : Str) : M (Option Str) := do
  let s ← getS
  match lookupA s.loader.cssCache cssUrl with
  | some css => pure (some css)
  | none => do
    let resp ← fetchWithRetry cssUrl
    if !resp.ok then pure (none : Option Str)
    else do
      modLoader (fun L => { L with cssCache := insertA L.cssCache cssUrl resp.text })
      pure (some resp.text)

/-- The download phase of `downloadFontFromCSSUrl` (threshold 1000 bytes). -/
def cssDownloadPhase (fontName safeFilename : Str) (urls : List WUrl) : M Bool := do
  mkdirCache
  let successCount ← downloadVariantsC fontName safeFilename urls
  if 0 < successCount then do
    setDownloaded fontName (pathJoin FONTS_CACHE_DIR (safeFilename ++ "-400.ttf".data))
    pure true
  else pure false

/-- The source's `downloadFontFromCSSUrl(fontName, cssUrl)`. -/
def downloadFontFromCSSUrl (fontName cssUrl : Str) : M Bool :=
  tryCatchM
    (do
      let cssOpt ← cssGetText cssUrl
      match cssOpt with
      | none => pure false
      | some css => do
        let ttfUrls := parseTTFUrlsFromCSS css
        if ttfUrls.length == 0 then pure false
        else cssDownloadPhase fontName (sanitizeName fontName) ttfUrls)
    (fun _ => pure false)

/-- The cache path a direct-binary custom font is persisted at:
`safe(clean(fontName)) + "." + ext(fontUrl)` inside the cache directory. -/
def customFontPath (fontName fontUrl : Str) : Str :=
  pathJoin FONTS_CACHE_DIR (sanitizeName (cleanName fontName) ++ ".".data ++ extOf fontUrl)

/-- The source's `downloadCustomFont(fontName, fontUrl)`. -/
def downloadCustomFont (fontName fontUrl : Str) : M Bool :=
  tryCatchM
    (do
      let cleanFontName := cleanName fontName
      if containsSub fontUrl "fonts.googleapis.com/css".data
          || containsSub fontUrl ".css".data then
        downloadFontFromCSSUrl cleanFontName fontUrl
      else do
        let fontPath := customFontPath fontName fontUrl
        let ex ← existsF fontPath
        if ex then do
          registerPath fontPath cleanFontName
          setDownloaded fontName fontPath
          setDownloaded cleanFontName fontPath
          pure true
        else do
          let resp ← fetchWithRetry fontUrl
          if !resp.ok then pure false
          else if resp.byteLength < 1000 then pure false
          else do
            writeF fontPath ⟨resp.byteLength, resp.validFont⟩
            registerPath fontPath cleanFontName
            setDownloaded fontName fontPath
            setDownloaded cleanFontName fontPath
            pure true)
    (fun _ => pure false)

/-- Registration of all cached variants under the original request string
(the inner loop of `downloadGoogleFont`; each registration failure ignored). -/
def aliasRegLoop (fontName : Str) : List Str → M Unit
  | [] => pure ()
  | f :: rest => do
    tryCatchM (registerPath (pathJoin FONTS_CACHE_DIR f) fontName) (fun _ => pure ())
    aliasRegLoop fontName rest

/-- The source's `downloadGoogleFont(fontName)`. -/
def downloadGoogleFont (fontName : Str) : M Bool :=
  tryCatchM
    (do
      let cleanFontName := cleanName fontName
      let s ← getS
      if (lookupA s.loader.downloadedFonts fontName).isSome
          || (lookupA s.loader.downloadedFonts cleanFontName).isSome then
        pure true
      else do
        let pre ← tryLoadPrebuiltFont cleanFontName
        if pre then do
          let s1 ← getS
          setDownloaded fontName ((lookupA s1.loader.downloadedFonts cleanFontName).getD [])
          pure true
        else do
          let result ← downloadGoogleFontDirect cleanFontName
          let s2 ← getS
          if result && (lookupA s2.loader.downloadedFonts cleanFontName).isSome then do
            let fontPath := (lookupA s2.loader.downloadedFonts cleanFontName).getD []
            setDownloaded fontName fontPath
            if !(fontPath == []) then
              tryCatchM
                (do
                  let safeFilename := sanitizeName cleanFontName
                  let s3 ← getS
                  if s3.world.cacheDirExists then do
                    let files ← readdirD FONTS_CACHE_DIR
                    let fontFiles := files.filter (fun f =>
                      startsWithL f safeFilename && endsWithL f ".ttf".data)
                    aliasRegLoop fontName fontFiles
                  else pure ())
                (fun _ => pure ())
            else pure ()
            pure result
          else pure result)
    (fun _ => pure false)

/-- The outcome of a `downloadAndRegisterFont` call in the sequential model:
either a boolean result, or attachment to an already in-flight promise (whose
eventual value is not determined by the current state). -/
inductive DARF where
  | done (b : Bool)
  | attached (id : Nat)
deriving DecidableEq, Repr

/-- The `try` block of the execution promise inside `downloadAndRegisterFont`:
directory bootstrap, URL-versus-name dispatch, and failure memoization of a
falsy tier outcome. -/
def darfBody (fontName fontUrlOrName : Str) : M Bool := do
  mkdirCache
  let isUrl := startsWithL fontUrlOrName "http://".data
    || startsWithL fontUrlOrName "https://".data
  let result ←
    if isUrl then downloadCustomFont fontName fontUrlOrName
    else downloadGoogleFont fontUrlOrName
  if !result then addFailedFont fontName
  else pure ()
  pure result

/-- The `catch` block of the execution promise: memoize the failure, return
`false`. -/
def darfCatch (fontName : Str) : Str → M Bool := fun _ => do
  addFailedFont fontName
  pure false

/-- The source's exported `downloadAndRegisterFont(fontName, fontUrlOrName)`:
generic-family short-circuit, memoized success/failure, in-flight dedup, and
the catch-all execution body with its `finally` removal of the handle. -/
def downloadAndRegisterFont (fontName fontUrlOrName : Str) : M DARF := do
  if isGeneric fontUrlOrName then pure (DARF.done true)
  else do
    let s ← getS
    if (lookupA s.loader.downloadedFonts fontName).isSome then pure (DARF.done true)
    else if elemS s.loader.failedFonts fontName then pure (DARF.done false)
    else
      match lookupA s.loader.downloadingFonts fontName with
      | some e => pure (DARF.attached e)
      | none => do
        modifyS (fun st =>
          { st with
            loader := { st.loader with
              downloadingFonts := insertA st.loader.downloadingFonts fontName st.nextId },
            nextId := st.nextId + 1 })
        let r ← tryCatchM (darfBody fontName fontUrlOrName) (darfCatch fontName)
        modLoader (fun L => { L with downloadingFonts := eraseA L.downloadingFonts fontName })
        pure (DARF.done r)

/-- The exported `clearFailedFonts()`. -/
def clearFailedFonts (s : St) : St :=
  { s with loader := { s.loader with failedFonts := [] } }

/-- The exported `clearMemoryCache()`. -/
def clearMemoryCache (s : St) : St :=
  { s with loader := { s.loader with cssCache := [], fontMetadataCache := [] } }

/-- An empty loader state (process start). -/
def initLoader : LoaderState := ⟨[], [], [], [], []⟩

/-- A fresh state over a given world. -/
def initSt (w : World) : St := ⟨w, initLoader, [], 0, 0, 0⟩

/-! ### Interleaving-level model of the singleflight facade

In the source, the segment of `downloadAndRegisterFont` from entry to
`downloadingFonts.set` contains no `await`, so on the JavaScript event loop it
runs atomically; the execution body completes later.  A call is therefore one
atomic prologue step, and an execution's completion (the failure memoization
and the `finally` removal of the handle) is another atomic step. -/

/-- The facade state visible to the prologue. -/
structure DState where
  downloaded : List (Str × Str)
  failed : List Str
  inflight : List (Str × Nat)
deriving DecidableEq, Repr

/-- What one call observes: an immediate boolean, attachment to an existing
in-flight execution, or the start of a new execution. -/
inductive CallOutcome where
  | done (b : Bool)
  | attached (id : Nat)
  | started (id : Nat)
deriving DecidableEq, Repr

/-- The atomic prologue of a `downloadAndRegisterFont` call (generic check,
memoized success, memoized failure, in-flight attach, else start). -/
def prologueStep (s : DState) (fontName fontUrlOrName : Str) (freshId : Nat) :
    CallOutcome × DState :=
  if isGeneric fontUrlOrName then (CallOutcome.done true, s)
  else if (lookupA s.downloaded fontName).isSome then (CallOutcome.done true, s)
  else if elemS s.failed fontName then (CallOutcome.done false, s)
  else
    match lookupA s.inflight fontName with
    | some e => (CallOutcome.attached e, s)
    | none =>
      (CallOutcome.started freshId,
        { s with inflight := insertA s.inflight fontName freshId })

/-- Completion of an execution: the facade memoizes a failure and removes the
in-flight handle in its `finally`, for success and failure alike. -/
def completeStep (s : DState) (fontName : Str) (result : Bool) : DState :=
  { s with
    failed := if result then s.failed else addSet s.failed fontName,
    inflight := eraseA s.inflight fontName }

/-- N call prologues arriving with no completion in between (concurrent
callers), threading a fresh-id counter. -/
def runCalls (s : DState) (calls : List (Str × Str)) (k : Nat) :
    List CallOutcome × DState × Nat :=
  match calls with
  | [] => ([], s, k)
  | c :: rest =>
    let p := prologueStep s c.1 c.2 k
    let q := runCalls p.2 rest (k + 1)
    (p.1 :: q.1, q.2.1, q.2.2)

/-- The boolean a caller eventually receives, given the result each execution
id would deliver: immediate outcomes are their own value, attached and
starting callers receive their execution's result. -/
def eventualRes (execRes : Nat → Bool) : CallOutcome → Bool
  | CallOutcome.done b => b
  | CallOutcome.attached e => execRes e
  | CallOutcome.started e => execRes e

/-- Did this call start a new execution? -/
def isStartedOutcome : CallOutcome → Bool
  | CallOutcome.started _ => true
  | _ => false

/-! ### Association-list lemmas -/

theorem lookupA_insertA_self {α : Type} (l : List (Str × α)) (k : Str) (v : α) :
    lookupA (insertA l k v) k = some v := by
  induction l with
  | nil => simp [insertA, lookupA]
  | cons kv t ih =>
    obtain ⟨k1, v1⟩ := kv
    by_cases h : k1 = k
    · simp [insertA, lookupA, h]
    · simp [insertA, lookupA, h, ih]

theorem lookupA_insertA_ne {α : Type} (l : List (Str × α)) (k k2 : Str) (v : α)
    (h : k2 ≠ k) : lookupA (insertA l k v) k2 = lookupA l k2 := by
  induction l with
  | nil => simp [insertA, lookupA, Ne.symm h]
  | cons kv t ih =>
    obtain ⟨k1, v1⟩ := kv
    by_cases h1 : k1 = k
    · subst h1
      simp [insertA, lookupA, Ne.symm h]
    · simp [insertA, lookupA, h1, ih]

theorem lookupA_eraseA_self {α : Type} (l : List (Str × α)) (k : Str) :
    lookupA (eraseA l k) k = none := by
  induction l with
  | nil => simp [eraseA, lookupA]
  | cons kv t ih =>
    obtain ⟨k1, v1⟩ := kv
    by_cases h : k1 = k
    · simp [eraseA, h, ih]
    · simp [eraseA, lookupA, h, ih]

theorem filter_replicate_outcome (p : CallOutcome → Bool) (a : CallOutcome) (m : Nat) :
    (List.replicate m a).filter p = if p a then List.replicate m a else [] := by
  induction m with
  | zero => simp
  | succ m ih =>
    by_cases h : p a = true
    · simp [List.replicate_succ, List.filter, h, ih]
    · simp only [Bool.not_eq_true] at h
      simp [List.replicate_succ, List.filter, h, ih]

/-! ### Claim C1: singleflight dedup -/

theorem runCalls_stable (s : DState) (c : Str × Str) (o : CallOutcome)
    (h : ∀ j, prologueStep s c.1 c.2 j = (o, s)) :
    ∀ (m k : Nat), runCalls s (List.replicate m c) k = (List.replicate m o, s, k + m) := by
  intro m
  induction m with
  | zero => intro k; simp [runCalls]
  | succ m ih =>
    intro k
    have harith : k + 1 + m = k + (m + 1) := by omega
    simp only [List.replicate_succ, runCalls, h k, ih (k + 1), harith]

theorem runCalls_replicate_cases (s : DState) (fontName src : Str) (n k : Nat) :
    (∃ o : CallOutcome, isStartedOutcome o = false
        ∧ (runCalls s (List.replicate n (fontName, src)) k).1 = List.replicate n o)
    ∨ (∃ m, n = m + 1
        ∧ (runCalls s (List.replicate n (fontName, src)) k).1
            = CallOutcome.started k :: List.replicate m (CallOutcome.attached k)) := by
  by_cases hg : isGeneric src = true
  · left
    refine ⟨CallOutcome.done true, rfl, ?_⟩
    rw [runCalls_stable s (fontName, src) (CallOutcome.done true) (fun j => by
      simp [prologueStep, hg]) n k]
  · simp only [Bool.not_eq_true] at hg
    by_cases hd : (lookupA s.downloaded fontName).isSome = true
    · left
      refine ⟨CallOutcome.done true, rfl, ?_⟩
      rw [runCalls_stable s (fontName, src) (CallOutcome.done true) (fun j => by
        simp [prologueStep, hg, hd]) n k]
    · simp only [Bool.not_eq_true] at hd
      by_cases hf : elemS s.failed fontName = true
      · left
        refine ⟨CallOutcome.done false, rfl, ?_⟩
        rw [runCalls_stable s (fontName, src) (CallOutcome.done false) (fun j => by
          simp [prologueStep, hg, hd, hf]) n k]
      · simp only [Bool.not_eq_true] at hf
        cases hin : lookupA s.inflight fontName with
        | some e =>
          left
          refine ⟨CallOutcome.attached e, rfl, ?_⟩
          rw [runCalls_stable s (fontName, src) (CallOutcome.attached e) (fun j => by
            simp [prologueStep, hg, hd, hf, hin]) n k]
        | none =>
          cases n with
          | zero =>
            left
            exact ⟨CallOutcome.done true, rfl, by simp [runCalls]⟩
          | succ m =>
            right
            refine ⟨m, rfl, ?_⟩
            have hfirst : prologueStep s fontName src k =
                (CallOutcome.started k,
                  { s with inflight := insertA s.inflight fontName k }) := by
              simp [prologueStep, hg, hd, hf, hin]
            have hrest : ∀ j, prologueStep
                { s with inflight := insertA s.inflight fontName k } fontName src j =
                (CallOutcome.attached k,
                  { s with inflight := insertA s.inflight fontName k }) := by
              intro j
              simp [prologueStep, hg, hd, hf, lookupA_insertA_self]
            simp only [List.replicate_succ, runCalls, hfirst,
              runCalls_stable _ (fontName, src) (CallOutcome.attached k) hrest m (k + 1)]

/-- C1: for one font identity (same fontName and same source argument), N
concurrent `downloadAndRegisterFont` prologues start at most one underlying
execution; every one of the N calls receives the same eventual boolean; and
completion of an execution always removes the shared in-flight handle,
whether the result is success or failure. -/
theorem c1_singleflight_dedup (s : DState) (fontName src : Str)
    (n k : Nat) (execRes : Nat → Bool) :
    (((runCalls s (List.replicate n (fontName, src)) k).1.filter isStartedOutcome).length ≤ 1)
    ∧ (∃ b, ∀ o ∈ (runCalls s (List.replicate n (fontName, src)) k).1,
        eventualRes execRes o = b)
    ∧ (∀ (s2 : DState) (nm : Str) (r : Bool),
        lookupA (completeStep s2 nm r).inflight nm = none) := by
  refine ⟨?_, ?_, ?_⟩
  · rcases runCalls_replicate_cases s fontName src n k with ⟨o, ho, heq⟩ | ⟨m, _, heq⟩
    · rw [heq, filter_replicate_outcome, ho]
      simp
    · rw [heq]
      simp only [List.filter, isStartedOutcome]
      rw [filter_replicate_outcome]
      simp [isStartedOutcome]
  · rcases runCalls_replicate_cases s fontName src n k with ⟨o, _, heq⟩ | ⟨m, _, heq⟩
    · refine ⟨eventualRes execRes o, ?_⟩
      rw [heq]
      intro o2 ho2
      rw [List.eq_of_mem_replicate ho2]
    · refine ⟨execRes k, ?_⟩
      rw [heq]
      intro o2 ho2
      rcases List.mem_cons.mp ho2 with h2 | h2
      · rw [h2]; rfl
      · rw [List.eq_of_mem_replicate h2]; rfl
  · intro s2 nm r
    simp [completeStep, lookupA_eraseA_self]

/-! ### Run equations for the monad -/

theorem bind_run {α β : Type} (m : M α) (f : α → M β) (env : Env) (st : St) :
    (m >>= f) env st =
      match m env st with
      | (Except.ok a, s1) => f a env s1
      | (Except.error e, s1) => (Except.error e, s1) := rfl

theorem pure_run {α : Type} (a : α) (env : Env) (st : St) :
    (pure a : M α) env st = (Except.ok a, st) := rfl

theorem getS_run (env : Env) (st : St) : getS env st = (Except.ok st, st) := rfl

theorem modifyS_run (f : St → St) (env : Env) (st : St) :
    modifyS f env st = (Except.ok (), f st) := rfl

theorem tryCatchM_run {α : Type} (m : M α) (h : Str → M α) (env : Env) (st : St) :
    tryCatchM m h env st =
      match m env st with
      | (Except.ok a, s1) => (Except.ok a, s1)
      | (Except.error e, s1) => h e env s1 := rfl

/-- A network oracle that throws on every call. -/
def envNoNet : Env := ⟨fun _ _ => Except.error "network unavailable".data, fun _ => none, 0⟩

/-- An empty world: no files, nothing registered, no directories. -/
def emptyWorld : World := ⟨[], [], false, false⟩

/-! ### Claim C6: generic/system families short-circuit -/

/-- C6: whenever the first comma-separated segment of the source argument,
trimmed and lowercased, is in the fixed generic/system family set,
`downloadAndRegisterFont` returns `true` with the state (caches, trace,
counters, world) entirely unchanged: no network, no tier work, no cache
mutation. -/
theorem c6_generic_short_circuit (env : Env) (st : St) (fontName src : Str)
    (h : isGeneric src = true) :
    downloadAndRegisterFont fontName src env st = (Except.ok (DARF.done true), st) := by
  simp [downloadAndRegisterFont, h, pure_run]

/-- Witness for C6 at a concrete generic input. -/
theorem c6_generic_short_circuit_witness :
    isGeneric "Arial, sans-serif".data = true
    ∧ downloadAndRegisterFont "Arial, sans-serif".data "Arial, sans-serif".data envNoNet
        (initSt emptyWorld)
      = (Except.ok (DARF.done true), initSt emptyWorld) :=
  ⟨by decide,
   c6_generic_short_circuit envNoNet (initSt emptyWorld) "Arial, sans-serif".data
     "Arial, sans-serif".data (by decide)⟩

/-! ### Claim C8: the facade never raises -/

/-- C8: for every pair of string arguments, every oracle behaviour (thrown
errors at any fetch or filesystem suspension point included) and every state,
`downloadAndRegisterFont` returns an `Except.ok` outcome: it never raises an
error to its caller; tier-internal errors become the boolean `false` through
its catch handler. -/
theorem c8_never_raises (env : Env) (st : St) (fontName src : Str) :
    ∃ r : DARF, (downloadAndRegisterFont fontName src env st).1 = Except.ok r := by
  by_cases hg : isGeneric src = true
  · exact ⟨DARF.done true, by simp [downloadAndRegisterFont, hg, pure_run]⟩
  · simp only [Bool.not_eq_true] at hg
    by_cases hd : (lookupA st.loader.downloadedFonts fontName).isSome = true
    · exact ⟨DARF.done true,
        by simp [downloadAndRegisterFont, hg, hd, pure_run, bind_run, getS_run]⟩
    · simp only [Bool.not_eq_true] at hd
      by_cases hf : elemS st.loader.failedFonts fontName = true
      · exact ⟨DARF.done false,
          by simp [downloadAndRegisterFont, hg, hd, hf, pure_run, bind_run, getS_run]⟩
      · simp only [Bool.not_eq_true] at hf
        cases hin : lookupA st.loader.downloadingFonts fontName with
        | some e =>
          exact ⟨DARF.attached e,
            by simp [downloadAndRegisterFont, hg, hd, hf, hin, pure_run, bind_run, getS_run]⟩
        | none =>
          rcases hbody : darfBody fontName src env
              { st with
                loader := { st.loader with
                  downloadingFonts := insertA st.loader.downloadingFonts fontName st.nextId },
                nextId := st.nextId + 1 } with ⟨res, s2⟩
          cases res with
          | ok b =>
            exact ⟨DARF.done b,
              by simp [downloadAndRegisterFont, hg, hd, hf, hin, pure_run, bind_run,
                getS_run, modifyS_run, tryCatchM_run, hbody, modLoader]⟩
          | error e =>
            exact ⟨DARF.done false,
              by simp [downloadAndRegisterFont, hg, hd, hf, hin, pure_run, bind_run,
                getS_run, modifyS_run, tryCatchM_run, hbody, darfCatch, addFailedFont,
                modLoader]⟩

/-! ### Claim C2: failure memoization -/

set_option maxHeartbeats 2000000 in
/-- Counterexample to C2 as stated: after the resolution for fontName `F`
(source URL with every fetch throwing) fails and is memoized, a subsequent
`downloadAndRegisterFont` call with that same fontName but a generic source
argument returns `true`, not `false` — the generic-family short-circuit
precedes the failure-memo check. -/
theorem c2_counterexample :
    (downloadAndRegisterFont "F".data "https://x.a/f.ttf".data envNoNet (initSt emptyWorld)).1
      = Except.ok (DARF.done false)
    ∧ elemS (downloadAndRegisterFont "F".data "https://x.a/f.ttf".data envNoNet
        (initSt emptyWorld)).2.loader.failedFonts "F".data = true
    ∧ (downloadAndRegisterFont "F".data "serif".data envNoNet
        (downloadAndRegisterFont "F".data "https://x.a/f.ttf".data envNoNet
          (initSt emptyWorld)).2).1
      = Except.ok (DARF.done true) := by
  decide

/-- C2 (amended): after a failed resolution is memoized for a fontName, every
subsequent call with that fontName whose source argument is not a generic
family, made while the fontName is absent from the success cache, returns
`false` with the state (hence the trace: no network activity) unchanged;
`clearFailedFonts` empties the failure memo, after which such a call starts
resolution work again. -/
theorem c2_failure_memoization_amended :
    (∀ (env : Env) (st : St) (fontName src : Str),
      isGeneric src = false →
      elemS st.loader.failedFonts fontName = true →
      lookupA st.loader.downloadedFonts fontName = none →
      downloadAndRegisterFont fontName src env st = (Except.ok (DARF.done false), st))
    ∧ (∀ st : St, (clearFailedFonts st).loader.failedFonts = [])
    ∧ (∀ (s : DState) (fontName src : Str) (k : Nat),
      isGeneric src = false →
      lookupA s.downloaded fontName = none →
      lookupA s.inflight fontName = none →
      (prologueStep { s with failed := [] } fontName src k).1 = CallOutcome.started k) := by
  refine ⟨?_, ?_, ?_⟩
  · intro env st fontName src hg hf hd
    simp [downloadAndRegisterFont, hg, hf, hd, pure_run, bind_run, getS_run]
  · intro st
    rfl
  · intro s fontName src k hg hd hin
    simp [prologueStep, hg, hd, hin, elemS]

/-- Witness for C2 (amended) at concrete inputs. -/
theorem c2_failure_memoization_amended_witness :
    isGeneric "NoSuchFont".data = false
    ∧ downloadAndRegisterFont "F".data "NoSuchFont".data envNoNet
        { initSt emptyWorld with
          loader := { initLoader with failedFonts := ["F".data] } }
      = (Except.ok (DARF.done false),
         { initSt emptyWorld with
           loader := { initLoader with failedFonts := ["F".data] } })
    ∧ (prologueStep { downloaded := [], failed := [], inflight := [] }
        "F".data "NoSuchFont".data 0).1 = CallOutcome.started 0 :=
  ⟨by decide,
   c2_failure_memoization_amended.1 envNoNet
     { initSt emptyWorld with loader := { initLoader with failedFonts := ["F".data] } }
     "F".data "NoSuchFont".data (by decide) (by decide) (by decide),
   c2_failure_memoization_amended.2.2 ⟨[], ["F".data], []⟩ "F".data "NoSuchFont".data 0
     (by decide) (by decide) (by decide)⟩

/-! ### Claim C3: identity keying of the three caches -/

/-- Counterexample to C3 as stated: a failure memoized under request string
`Montserrat` (recorded by a completed failed execution) is not observed by a
later request `Montserrat, sans-serif` whose name differs only by a CSS
fallback suffix (the normalized names are equal): instead of returning the
memoized `false`, the later call starts a new execution — the failure cache
is keyed by the raw request string. -/
theorem c3_counterexample :
    cleanName "Montserrat, sans-serif".data = cleanName "Montserrat".data
    ∧ (prologueStep
        (completeStep
          (prologueStep ⟨[], [], []⟩ "Montserrat".data "Montserrat".data 0).2
          "Montserrat".data false)
        "Montserrat, sans-serif".data "Montserrat, sans-serif".data 1).1
      = CallOutcome.started 1 := by
  decide

/-- C3 (amended): only the success cache unifies requests with equal
normalized names, and only for Name-sourced requests — a later Name-source
call whose raw string is uncached but whose normalized name has a memoized
success returns `true` without any network activity (the tier re-checks the
normalized name).  The failure cache and the in-flight dedup map are keyed by
the exact request string: a call whose own fontName is in neither observes
nothing recorded under any other request string, however it normalizes, and
starts a new execution. -/
theorem c3_identity_keying_amended :
    (∀ (env : Env) (st : St) (r2 p : Str),
      isGeneric r2 = false →
      startsWithL r2 "http://".data = false →
      startsWithL r2 "https://".data = false →
      lookupA st.loader.downloadedFonts r2 = none →
      lookupA st.loader.downloadedFonts (cleanName r2) = some p →
      elemS st.loader.failedFonts r2 = false →
      lookupA st.loader.downloadingFonts r2 = none →
      env.fsE st.fsCount = none →
      (downloadAndRegisterFont r2 r2 env st).1 = Except.ok (DARF.done true)
      ∧ (downloadAndRegisterFont r2 r2 env st).2.fetchCount = st.fetchCount)
    ∧ (∀ (s : DState) (fontName src : Str) (k : Nat),
      isGeneric src = false →
      lookupA s.downloaded fontName = none →
      elemS s.failed fontName = false →
      lookupA s.inflight fontName = none →
      (prologueStep s fontName src k).1 = CallOutcome.started k) := by
  constructor
  · intro env st r2 p hg hu1 hu2 hd hc hf hin hfs
    constructor
    · simp [downloadAndRegisterFont, darfBody, downloadGoogleFont, hg, hu1, hu2, hd, hc,
        hf, hin, hfs, bind_run, getS_run, modifyS_run, tryCatchM_run, pure_run,
        mkdirCache, modLoader]
    · simp [downloadAndRegisterFont, darfBody, downloadGoogleFont, hg, hu1, hu2, hd, hc,
        hf, hin, hfs, bind_run, getS_run, modifyS_run, tryCatchM_run, pure_run,
        mkdirCache, modLoader]
  · intro s fontName src k hg hd hf hin
    simp [prologueStep, hg, hd, hf, hin]

/-- A state whose success cache holds only the normalized name `Montserrat`. -/
def stC3 : St :=
  { initSt emptyWorld with
    loader := { initLoader with downloadedFonts := [("Montserrat".data, "p".data)] } }

/-- Witness for C3 (amended) at concrete inputs: the fallback-suffixed
request observes the success memoized under the normalized name, without
network, and an unknown raw string starts a fresh execution. -/
theorem c3_identity_keying_amended_witness :
    isGeneric "Montserrat, sans-serif".data = false
    ∧ (downloadAndRegisterFont "Montserrat, sans-serif".data
        "Montserrat, sans-serif".data envNoNet stC3).1 = Except.ok (DARF.done true)
    ∧ (downloadAndRegisterFont "Montserrat, sans-serif".data
        "Montserrat, sans-serif".data envNoNet stC3).2.fetchCount = stC3.fetchCount
    ∧ (prologueStep ⟨[], ["Montserrat".data], []⟩ "Montserrat, sans-serif".data
        "Montserrat, sans-serif".data 5).1 = CallOutcome.started 5 :=
  ⟨by decide,
   (c3_identity_keying_amended.1 envNoNet stC3 "Montserrat, sans-serif".data "p".data
     (by decide) (by decide) (by decide) (by decide) (by decide) (by decide) (by decide)
     (by decide)).1,
   (c3_identity_keying_amended.1 envNoNet stC3 "Montserrat, sans-serif".data "p".data
     (by decide) (by decide) (by decide) (by decide) (by decide) (by decide) (by decide)
     (by decide)).2,
   c3_identity_keying_amended.2 ⟨[], ["Montserrat".data], []⟩
     "Montserrat, sans-serif".data "Montserrat, sans-serif".data 5
     (by decide) (by decide) (by decide) (by decide)⟩

/-! ### Claim C9: URL-source direct binary -/

theorem drop_suffix_eq (l p : Str) (hp : 0 < p.length) (h : endsWithL l p = true) :
    l.drop (l.length - (p.length - 1)) = p.drop 1 := by
  unfold endsWithL at h
  rw [Bool.and_eq_true] at h
  obtain ⟨h1, h2⟩ := h
  rw [decide_eq_true_iff] at h1
  rw [beq_iff_eq] at h2
  have harith : l.length - (p.length - 1) = (l.length - p.length) + 1 := by omega
  rw [harith, ← List.drop_drop, h2]

theorem lowerL_drop (l : Str) (n : Nat) : lowerL (l.drop n) = (lowerL l).drop n := by
  simp [lowerL, List.map_drop]

theorem ends_drop_eq (url p q : Str) (k : Nat)
    (hk : p.length - 1 = k) (hq : p.drop 1 = q) (hp : 0 < p.length)
    (h : endsWithL (lowerL url) p = true) :
    lowerL (url.drop (url.length - k)) = q := by
  have h5 := drop_suffix_eq (lowerL url) p hp h
  rw [hk, hq] at h5
  rw [lowerL_drop]
  have hl : (lowerL url).length = url.length := by simp [lowerL]
  rw [← hl]
  exact h5

/-- The inferred extension is always one of the four supported ones (with
`ttf` the default). -/
theorem extOf_mem (url : Str) :
    lowerL (extOf url) = "ttf".data ∨ lowerL (extOf url) = "otf".data
    ∨ lowerL (extOf url) = "woff".data ∨ lowerL (extOf url) = "woff2".data := by
  by_cases h2 : endsWithL (lowerL url) ".woff2".data = true
  · right; right; right
    have hgoal : extOf url = url.drop (url.length - 5) := by simp [extOf, h2]
    rw [hgoal]
    exact ends_drop_eq url ".woff2".data "woff2".data 5 (by decide) (by decide) (by decide) h2
  · simp only [Bool.not_eq_true] at h2
    by_cases h3 : endsWithL (lowerL url) ".woff".data = true
    · right; right; left
      have hgoal : extOf url = url.drop (url.length - 4) := by simp [extOf, h2, h3]
      rw [hgoal]
      exact ends_drop_eq url ".woff".data "woff".data 4 (by decide) (by decide) (by decide) h3
    · simp only [Bool.not_eq_true] at h3
      by_cases h4 : endsWithL (lowerL url) ".ttf".data = true
      · left
        have hgoal : extOf url = url.drop (url.length - 3) := by simp [extOf, h2, h3, h4]
        rw [hgoal]
        exact ends_drop_eq url ".ttf".data "ttf".data 3 (by decide) (by decide) (by decide) h4
      · simp only [Bool.not_eq_true] at h4
        by_cases h5 : endsWithL (lowerL url) ".otf".data = true
        · right; left
          have hgoal : extOf url = url.drop (url.length - 3) := by simp [extOf, h2, h3, h4, h5]
          rw [hgoal]
          exact ends_drop_eq url ".otf".data "otf".data 3 (by decide) (by decide) (by decide) h5
        · simp only [Bool.not_eq_true] at h5
          left
          have hgoal : extOf url = "ttf".data := by simp [extOf, h2, h3, h4, h5]
          rw [hgoal]
          rfl

theorem fetchWithRetry_ok (url : Str) (env : Env) (st : St) (resp : Response)
    (h : env.fetchE st.fetchCount url = Except.ok resp) :
    fetchWithRetry url env st
      = (Except.ok resp,
         { st with trace := st.trace ++ [Ev.fetch url], fetchCount := st.fetchCount + 1 }) := by
  simp [fetchWithRetry, fetchAttempts, tryCatchM_run, fetchOnce, h]

/-- A network oracle that answers every fetch with a valid 50 KB binary. -/
def envOkBin : Env := ⟨fun _ _ => Except.ok ⟨true, 200, [], 51200, true⟩, fun _ => none, 0⟩

/-- Counterexample to C9 as stated: resolving `Brand, sans-serif` from a
direct binary URL succeeds and writes `Brand.ttf`, but the font registry
receives only the normalized alias `Brand` — the original requested name
`Brand, sans-serif` is never registered with the canvas. -/
theorem c9_counterexample :
    (downloadAndRegisterFont "Brand, sans-serif".data "https://cdn.x.com/brand.ttf".data
      envOkBin (initSt emptyWorld)).1 = Except.ok (DARF.done true)
    ∧ (downloadAndRegisterFont "Brand, sans-serif".data "https://cdn.x.com/brand.ttf".data
        envOkBin (initSt emptyWorld)).2.world.registered
      = [(pathJoin FONTS_CACHE_DIR "Brand.ttf".data, "Brand".data)] := by
  decide

/-- C9 (amended): for a URL-source resolution whose URL is a direct binary
(not a CSS/manifest resource), with no cached file at the expected path: the
extension is inferred from the URL suffix among ttf/otf/woff/woff2 (ttf when
absent), the payload is fetched exactly once and, being at least the minimum
1000 bytes and valid, persisted at the sanitized-normalized-name path; the
canvas registration happens only under the normalized (fallback-stripped)
name, while the in-memory success cache records the path under both the
original requested name and the normalized name. -/
theorem c9_url_source_amended (env : Env) (st : St) (fontName fontUrl : Str) (resp : Response)
    (hcss1 : containsSub fontUrl "fonts.googleapis.com/css".data = false)
    (hcss2 : containsSub fontUrl ".css".data = false)
    (hnofile : lookupA st.world.files (customFontPath fontName fontUrl) = none)
    (hfetch : env.fetchE st.fetchCount fontUrl = Except.ok resp)
    (hok : resp.ok = true)
    (hsize : ¬ resp.byteLength < 1000)
    (hvalid : resp.validFont = true)
    (hfs : env.fsE st.fsCount = none) :
    (downloadCustomFont fontName fontUrl env st).1 = Except.ok true
    ∧ (downloadCustomFont fontName fontUrl env st).2.trace
        = st.trace ++ [Ev.fetch fontUrl, Ev.fsWrite (customFontPath fontName fontUrl),
            Ev.reg (customFontPath fontName fontUrl) (cleanName fontName)]
    ∧ lookupA (downloadCustomFont fontName fontUrl env st).2.world.files
        (customFontPath fontName fontUrl) = some ⟨resp.byteLength, true⟩
    ∧ (downloadCustomFont fontName fontUrl env st).2.world.registered
        = st.world.registered ++ [(customFontPath fontName fontUrl, cleanName fontName)]
    ∧ lookupA (downloadCustomFont fontName fontUrl env st).2.loader.downloadedFonts fontName
        = some (customFontPath fontName fontUrl)
    ∧ lookupA (downloadCustomFont fontName fontUrl env st).2.loader.downloadedFonts
        (cleanName fontName) = some (customFontPath fontName fontUrl)
    ∧ (lowerL (extOf fontUrl) = "ttf".data ∨ lowerL (extOf fontUrl) = "otf".data
        ∨ lowerL (extOf fontUrl) = "woff".data ∨ lowerL (extOf fontUrl) = "woff2".data) := by
  have hrun : downloadCustomFont fontName fontUrl env st
      = (Except.ok true,
         { st with
           world := { st.world with
             files := insertA st.world.files (customFontPath fontName fontUrl)
               ⟨resp.byteLength, true⟩,
             registered := st.world.registered
               ++ [(customFontPath fontName fontUrl, cleanName fontName)] },
           loader := { st.loader with
             downloadedFonts := insertA
               (insertA st.loader.downloadedFonts fontName (customFontPath fontName fontUrl))
               (cleanName fontName) (customFontPath fontName fontUrl) },
           trace := st.trace ++ [Ev.fetch fontUrl,
             Ev.fsWrite (customFontPath fontName fontUrl),
             Ev.reg (customFontPath fontName fontUrl) (cleanName fontName)],
           fetchCount := st.fetchCount + 1,
           fsCount := st.fsCount + 1 }) := by
    simp [downloadCustomFont, hcss1, hcss2, hnofile, hok, hsize, hvalid, hfs,
      fetchWithRetry_ok fontUrl env st resp hfetch,
      bind_run, pure_run, getS_run, modifyS_run, tryCatchM_run,
      existsF, writeF, registerPath, unlinkF, mkdirCache,
      setDownloaded, modLoader, lookupA_insertA_self]
  refine ⟨by rw [hrun], by rw [hrun], ?_, by rw [hrun], ?_, ?_, extOf_mem fontUrl⟩
  · rw [hrun]
    exact lookupA_insertA_self _ _ _
  · rw [hrun]
    by_cases hcn : cleanName fontName = fontName
    · rw [hcn]
      exact lookupA_insertA_self _ _ _
    · rw [lookupA_insertA_ne _ _ _ _ (fun hh => hcn hh.symm)]
      exact lookupA_insertA_self _ _ _
  · rw [hrun]
    exact lookupA_insertA_self _ _ _

/-- Witness for C9 (amended) at the spec's Scenario B inputs (a 50 KB valid
binary at a direct `.ttf` URL). -/
theorem c9_url_source_amended_witness :
    containsSub "https://cdn.x.com/brand.ttf".data ".css".data = false
    ∧ (downloadCustomFont "Brand, sans-serif".data "https://cdn.x.com/brand.ttf".data
        envOkBin (initSt emptyWorld)).1 = Except.ok true
    ∧ (downloadCustomFont "Brand, sans-serif".data "https://cdn.x.com/brand.ttf".data
        envOkBin (initSt emptyWorld)).2.world.registered
      = [(customFontPath "Brand, sans-serif".data "https://cdn.x.com/brand.ttf".data,
          "Brand".data)] := by
  have h := c9_url_source_amended envOkBin (initSt emptyWorld) "Brand, sans-serif".data
    "https://cdn.x.com/brand.ttf".data ⟨true, 200, [], 51200, true⟩
    (by decide) (by decide) (by decide) (by decide) (by decide) (by decide) (by decide)
    (by decide)
  refine ⟨by decide, h.1, ?_⟩
  have h4 := h.2.2.2.1
  simp only [initSt, emptyWorld] at h4
  simpa using h4

/-! ### Claim C10: the memoized `-400.ttf` path -/

theorem bind_post {α : Type} (P : St → Prop) (m : M α) (k : α → M Bool) (env : Env) (st : St)
    (hk : ∀ (a : α) (st2 : St), (k a env st2).1 = Except.ok true → P (k a env st2).2)
    (h : ((m >>= k) env st).1 = Except.ok true) : P ((m >>= k) env st).2 := by
  rw [bind_run] at h ⊢
  generalize hm : m env st = q at h ⊢
  obtain ⟨rm, sm⟩ := q
  cases rm with
  | ok a => exact hk a sm h
  | error e => simp at h

theorem tryCatch_pureFalse_post (P : St → Prop) (m : M Bool) (env : Env) (st : St)
    (hm : (m env st).1 = Except.ok true → P (m env st).2)
    (h : ((tryCatchM m (fun _ => pure false)) env st).1 = Except.ok true) :
    P ((tryCatchM m (fun _ => pure false)) env st).2 := by
  rw [tryCatchM_run] at h ⊢
  generalize he : m env st = q at hm h ⊢
  obtain ⟨rm, sm⟩ := q
  cases rm with
  | ok a => exact hm h
  | error e => simp [pure_run] at h

theorem googleDownloadPhase_true (fontName safeFilename : Str) (urls : List WUrl)
    (env : Env) (st : St)
    (h : (googleDownloadPhase fontName safeFilename urls env st).1 = Except.ok true) :
    lookupA (googleDownloadPhase fontName safeFilename urls env st).2.loader.downloadedFonts
      fontName = some (pathJoin FONTS_CACHE_DIR (safeFilename ++ "-400.ttf".data)) := by
  unfold googleDownloadPhase at h ⊢
  refine bind_post (fun s2 => lookupA s2.loader.downloadedFonts fontName
    = some (pathJoin FONTS_CACHE_DIR (safeFilename ++ "-400.ttf".data)))
    mkdirCache _ env st ?_ h
  intro _ st2 h2
  refine bind_post (fun s2 => lookupA s2.loader.downloadedFonts fontName
    = some (pathJoin FONTS_CACHE_DIR (safeFilename ++ "-400.ttf".data)))
    (downloadVariantsG fontName safeFilename urls) _ env st2 ?_ h2
  intro n st3 h3
  by_cases hn : 0 < n
  · simp only [hn, if_true] at h3 ⊢
    simp [bind_run, setDownloaded, modLoader, modifyS_run, pure_run, lookupA_insertA_self]
  · simp only [hn, if_false] at h3
    simp [pure_run] at h3

theorem cssDownloadPhase_true (fontName safeFilename : Str) (urls : List WUrl)
    (env : Env) (st : St)
    (h : (cssDownloadPhase fontName safeFilename urls env st).1 = Except.ok true) :
    lookupA (cssDownloadPhase fontName safeFilename urls env st).2.loader.downloadedFonts
      fontName = some (pathJoin FONTS_CACHE_DIR (safeFilename ++ "-400.ttf".data)) := by
  unfold cssDownloadPhase at h ⊢
  refine bind_post (fun s2 => lookupA s2.loader.downloadedFonts fontName
    = some (pathJoin FONTS_CACHE_DIR (safeFilename ++ "-400.ttf".data)))
    mkdirCache _ env st ?_ h
  intro _ st2 h2
  refine bind_post (fun s2 => lookupA s2.loader.downloadedFonts fontName
    = some (pathJoin FONTS_CACHE_DIR (safeFilename ++ "-400.ttf".data)))
    (downloadVariantsC fontName safeFilename urls) _ env st2 ?_ h2
  intro n st3 h3
  by_cases hn : 0 < n
  · simp only [hn, if_true] at h3 ⊢
    simp [bind_run, setDownloaded, modLoader, modifyS_run, pure_run, lookupA_insertA_self]
  · simp only [hn, if_false] at h3
    simp [pure_run] at h3

/-- A state whose manifest cache holds a fresh entry for `Lato` with a single
variant of weight 300 (no 400), over an empty disk. -/
def st10c : St :=
  { initSt emptyWorld with
    loader := { initLoader with
      fontMetadataCache := [("Lato".data,
        ⟨[⟨"300".data, "https://fonts.gstatic.com/l3.ttf".data⟩], 0⟩)] } }

set_option maxHeartbeats 2000000 in
/-- C10: every successful named-source resolution memoizes the path
`safe(name)-400.ttf` in the success cache unconditionally — in
`downloadGoogleFontDirect` (under the quote-stripped sanitized name) and in
`downloadFontFromCSSUrl` (under the sanitized name) alike; and there is a run
(a single variant of weight 300) whose memoized `-400.ttf` path refers to a
file that does not exist on disk. -/
theorem c10_success_cache_maps_400 :
    (∀ (env : Env) (st : St) (fontName : Str),
      (downloadGoogleFontDirect fontName env st).1 = Except.ok true →
      lookupA (downloadGoogleFontDirect fontName env st).2.loader.downloadedFonts fontName
        = some (pathJoin FONTS_CACHE_DIR
            (sanitizeName (stripQuotes fontName) ++ "-400.ttf".data)))
    ∧ (∀ (env : Env) (st : St) (fontName cssUrl : Str),
      (downloadFontFromCSSUrl fontName cssUrl env st).1 = Except.ok true →
      lookupA (downloadFontFromCSSUrl fontName cssUrl env st).2.loader.downloadedFonts fontName
        = some (pathJoin FONTS_CACHE_DIR (sanitizeName fontName ++ "-400.ttf".data)))
    ∧ ((downloadGoogleFontDirect "Lato".data envOkBin st10c).1 = Except.ok true
      ∧ lookupA (downloadGoogleFontDirect "Lato".data envOkBin st10c).2.loader.downloadedFonts
          "Lato".data
        = some (pathJoin FONTS_CACHE_DIR ("Lato-400.ttf".data))
      ∧ lookupA (downloadGoogleFontDirect "Lato".data envOkBin st10c).2.world.files
          (pathJoin FONTS_CACHE_DIR ("Lato-400.ttf".data)) = none) := by
  refine ⟨?_, ?_, by decide, by decide, by decide⟩
  · intro env st fontName h
    unfold downloadGoogleFontDirect at h ⊢
    refine tryCatch_pureFalse_post (fun s2 => lookupA s2.loader.downloadedFonts fontName
      = some (pathJoin FONTS_CACHE_DIR
          (sanitizeName (stripQuotes fontName) ++ "-400.ttf".data))) _ env st ?_ h
    intro hb
    refine bind_post (fun s2 => lookupA s2.loader.downloadedFonts fontName
      = some (pathJoin FONTS_CACHE_DIR
          (sanitizeName (stripQuotes fontName) ++ "-400.ttf".data)))
      (googleGetUrls fontName (collapseWsTo '+' (stripQuotes fontName))) _ env st ?_ hb
    intro opt st2 h2
    cases opt with
    | none => simp [pure_run] at h2
    | some urls => exact googleDownloadPhase_true _ _ _ env st2 h2
  · intro env st fontName cssUrl h
    unfold downloadFontFromCSSUrl at h ⊢
    refine tryCatch_pureFalse_post (fun s2 => lookupA s2.loader.downloadedFonts fontName
      = some (pathJoin FONTS_CACHE_DIR (sanitizeName fontName ++ "-400.ttf".data)))
      _ env st ?_ h
    intro hb
    refine bind_post (fun s2 => lookupA s2.loader.downloadedFonts fontName
      = some (pathJoin FONTS_CACHE_DIR (sanitizeName fontName ++ "-400.ttf".data)))
      (cssGetText cssUrl) _ env st ?_ hb
    intro opt st2 h2
    cases opt with
    | none => simp [pure_run] at h2
    | some css =>
      by_cases hlen : ((parseTTFUrlsFromCSS css).length == 0) = true
      · simp only [hlen, if_true] at h2
        simp [pure_run] at h2
      · simp only [Bool.not_eq_true] at hlen
        simp only [hlen, Bool.false_eq_true, if_false] at h2 ⊢
        exact cssDownloadPhase_true _ _ _ env st2 h2

set_option maxHeartbeats 2000000 in
/-- Witness for C10 at the concrete weight-300-only run. -/
theorem c10_success_cache_maps_400_witness :
    (downloadGoogleFontDirect "Lato".data envOkBin st10c).1 = Except.ok true
    ∧ lookupA (downloadGoogleFontDirect "Lato".data envOkBin st10c).2.loader.downloadedFonts
        "Lato".data
      = some (pathJoin FONTS_CACHE_DIR
          (sanitizeName (stripQuotes "Lato".data) ++ "-400.ttf".data)) :=
  ⟨by decide, c10_success_cache_maps_400.1 envOkBin st10c "Lato".data (by decide)⟩

/-! ### Claim C7: parser strategy priority -/

theorem scanP1go_mono : ∀ (fuel : Nat) (s : Str) (acc : List WUrl) (seen : List Str),
    ∃ t, (scanP1go fuel s acc seen).1 = acc ++ t := by
  intro fuel
  induction fuel with
  | zero => intro s acc seen; exact ⟨[], by simp [scanP1go]⟩
  | succ fuel ih =>
    intro s acc seen
    cases hm : matchWeightTtfAt s with
    | some r =>
      obtain ⟨w, u, rest⟩ := r
      by_cases hs : elemS seen w = true
      · simpa [scanP1go, hm, hs] using ih rest acc seen
      · simp only [Bool.not_eq_true] at hs
        obtain ⟨t, ht⟩ := ih rest (acc ++ [⟨w, u⟩]) (seen ++ [w])
        exact ⟨⟨w, u⟩ :: t, by simp [scanP1go, hm, hs, ht]⟩
    | none =>
      cases s with
      | nil => exact ⟨[], by simp [scanP1go, hm]⟩
      | cons c cs => simpa [scanP1go, hm] using ih cs acc seen

theorem scanP1go_seen : ∀ (fuel : Nat) (s : Str) (acc : List WUrl) (seen : List Str),
    (scanP1go fuel s acc seen).1 = acc → (scanP1go fuel s acc seen).2 = seen := by
  intro fuel
  induction fuel with
  | zero => intro s acc seen _; simp [scanP1go]
  | succ fuel ih =>
    intro s acc seen h
    cases hm : matchWeightTtfAt s with
    | some r =>
      obtain ⟨w, u, rest⟩ := r
      by_cases hs : elemS seen w = true
      · simp only [scanP1go, hm, hs, if_true] at h ⊢
        exact ih rest acc seen h
      · simp only [Bool.not_eq_true] at hs
        exfalso
        simp only [scanP1go, hm, hs, Bool.false_eq_true, if_false] at h
        obtain ⟨t, ht⟩ := scanP1go_mono fuel rest (acc ++ [⟨w, u⟩]) (seen ++ [w])
        rw [ht] at h
        have := congrArg List.length h
        simp at this
    | none =>
      cases s with
      | nil => simp [scanP1go, hm]
      | cons c cs =>
        simp only [scanP1go, hm] at h ⊢
        exact ih cs acc seen h

theorem scanP2go_mono : ∀ (fuel : Nat) (s : Str) (acc : List WUrl) (seen : List Str) (idx : Nat),
    ∃ t, (scanP2go fuel s acc seen idx).1 = acc ++ t := by
  intro fuel
  induction fuel with
  | zero => intro s acc seen idx; exact ⟨[], by simp [scanP2go]⟩
  | succ fuel ih =>
    intro s acc seen idx
    cases hm : matchTruetypeAt s with
    | some r =>
      obtain ⟨u, rest⟩ := r
      simp only [scanP2go, hm]
      by_cases hs : elemS seen (wseq.getD idx "400".data) = true
      · rw [if_pos hs]
        exact ih rest acc seen (idx + 1)
      · rw [if_neg hs]
        obtain ⟨t, ht⟩ := ih rest (acc ++ [⟨wseq.getD idx "400".data, u⟩])
          (seen ++ [wseq.getD idx "400".data]) (idx + 1)
        exact ⟨⟨wseq.getD idx "400".data, u⟩ :: t, by rw [ht]; simp⟩
    | none =>
      cases s with
      | nil => exact ⟨[], by simp [scanP2go, hm]⟩
      | cons c cs => simpa [scanP2go, hm] using ih cs acc seen idx

theorem scanP2go_seen : ∀ (fuel : Nat) (s : Str) (acc : List WUrl) (seen : List Str) (idx : Nat),
    (scanP2go fuel s acc seen idx).1 = acc → (scanP2go fuel s acc seen idx).2 = seen := by
  intro fuel
  induction fuel with
  | zero => intro s acc seen idx _; simp [scanP2go]
  | succ fuel ih =>
    intro s acc seen idx h
    cases hm : matchTruetypeAt s with
    | some r =>
      obtain ⟨u, rest⟩ := r
      simp only [scanP2go, hm] at h ⊢
      by_cases hs : elemS seen (wseq.getD idx "400".data) = true
      · rw [if_pos hs] at h ⊢
        exact ih rest acc seen (idx + 1) h
      · rw [if_neg hs] at h
        exfalso
        obtain ⟨t, ht⟩ := scanP2go_mono fuel rest
          (acc ++ [⟨wseq.getD idx "400".data, u⟩]) (seen ++ [wseq.getD idx "400".data]) (idx + 1)
        rw [ht] at h
        have := congrArg List.length h
        simp at this
    | none =>
      cases s with
      | nil => simp [scanP2go, hm]
      | cons c cs =>
        simp only [scanP2go, hm] at h ⊢
        exact ih cs acc seen idx h

/-- The truetype URLs matched by pattern 2, in their order of appearance. -/
def p2urlsGo : Nat → Str → List Str
  | 0, _ => []
  | fuel + 1, s =>
    match matchTruetypeAt s with
    | some (u, rest) => u :: p2urlsGo fuel rest
    | none =>
      match s with
      | [] => []
      | _ :: cs => p2urlsGo fuel cs

/-- All truetype-format URLs of a manifest in order of appearance. -/
def truetypeUrls (css : Str) : List Str := p2urlsGo (css.length + 1) css

theorem scanP2go_zip : ∀ (fuel : Nat) (s : Str) (idx : Nat) (acc : List WUrl),
    (scanP2go fuel s acc (wseq.take idx) idx).1
      = acc ++ List.zipWith WUrl.mk (wseq.drop idx) ((p2urlsGo fuel s).take (3 - idx)) := by
  intro fuel
  induction fuel with
  | zero => intro s idx acc; simp [scanP2go, p2urlsGo]
  | succ fuel ih =>
    intro s idx acc
    cases hm : matchTruetypeAt s with
    | some r =>
      obtain ⟨u, rest⟩ := r
      simp only [scanP2go, p2urlsGo, hm]
      rcases idx with _ | (_ | (_ | n))
      · rw [if_neg (by decide)]
        have e1 : wseq.getD 0 ("400".data) = "300".data := by decide
        have e2 : wseq.take 0 ++ ["300".data] = wseq.take 1 := by decide
        rw [e1, e2, show (0 : Nat) + 1 = 1 from rfl, ih rest 1 (acc ++ [WUrl.mk "300".data u])]
        have e3 : wseq.drop 0 = "300".data :: wseq.drop 1 := by decide
        rw [e3, show (3 : Nat) - 0 = 3 from rfl, show (3 : Nat) - 1 = 2 from rfl]
        simp [List.take_succ_cons]
      · rw [if_neg (by decide)]
        have e1 : wseq.getD 1 ("400".data) = "400".data := by decide
        have e2 : wseq.take 1 ++ ["400".data] = wseq.take 2 := by decide
        rw [e1, e2, show (1 : Nat) + 1 = 2 from rfl, ih rest 2 (acc ++ [WUrl.mk "400".data u])]
        have e3 : wseq.drop 1 = "400".data :: wseq.drop 2 := by decide
        rw [e3, show (3 : Nat) - 1 = 2 from rfl, show (3 : Nat) - 2 = 1 from rfl]
        simp [List.take_succ_cons]
      · rw [if_neg (by decide)]
        have e1 : wseq.getD 2 ("400".data) = "700".data := by decide
        have e2 : wseq.take 2 ++ ["700".data] = wseq.take 3 := by decide
        rw [e1, e2, show (2 : Nat) + 1 = 3 from rfl, ih rest 3 (acc ++ [WUrl.mk "700".data u])]
        have e3 : wseq.drop 2 = "700".data :: wseq.drop 3 := by decide
        rw [e3, show (3 : Nat) - 2 = 1 from rfl, show (3 : Nat) - 3 = 0 from rfl]
        simp [List.take_succ_cons]
      · have hsat : wseq.take (n + 3) = wseq := by
          apply List.take_of_length_le
          simp [wseq]
        have hsat2 : wseq.take (n + 3 + 1) = wseq := by
          apply List.take_of_length_le
          simp [wseq]
        have hget : wseq.getD (n + 3) ("400".data) = "400".data := by
          apply List.getD_eq_default
          simp [wseq]
        have hel : elemS (wseq.take (n + 3)) ("400".data) = true := by
          rw [hsat]; decide
        rw [hget, if_pos hel]
        have hthis := ih rest (n + 3 + 1) acc
        rw [hsat2] at hthis
        rw [hsat, hthis]
        have hd1 : wseq.drop (n + 3) = [] := by
          apply List.drop_eq_nil_of_le
          simp [wseq]
        have hd2 : wseq.drop (n + 3 + 1) = [] := by
          apply List.drop_eq_nil_of_le
          simp [wseq]
        rw [hd1, hd2]
        simp
    | none =>
      cases s with
      | nil => simp [scanP2go, p2urlsGo, hm]
      | cons c cs =>
        simp only [scanP2go, p2urlsGo, hm]
        exact ih cs idx acc

theorem scanP3_skips_nonlatin :
    ∀ (pre post : List Str) (sec : Str) (acc : List WUrl) (seen : List Str),
    containsSub sec "unicode-range".data = true →
    containsSub sec "U+0000-00FF".data = false →
    scanP3Sections (pre ++ sec :: post) acc seen = scanP3Sections (pre ++ post) acc seen := by
  intro pre
  induction pre with
  | nil =>
    intro post sec acc seen h1 h2
    have hok : sectionOkForLatin sec = false := by
      simp [sectionOkForLatin, h1, h2]
    simp [scanP3Sections, hok]
  | cons x l ih =>
    intro post sec acc seen h1 h2
    simp only [List.cons_append, scanP3Sections]
    by_cases hx : sectionOkForLatin x = true
    · simp only [hx, if_true]
      cases hw : findWeightNum (x.length + 1) x with
      | some w =>
        cases hu : findWoff2 (x.length + 1) x with
        | some u =>
          by_cases hs : elemS seen w = true
          · simp only [hs, if_true]
            exact ih post sec acc seen h1 h2
          · simp only [Bool.not_eq_true] at hs
            simp only [hs, Bool.false_eq_true, if_false]
            exact ih post sec _ _ h1 h2
        | none => exact ih post sec acc seen h1 h2
      | none => exact ih post sec acc seen h1 h2
    · simp only [Bool.not_eq_true] at hx
      simp only [hx, Bool.false_eq_true, if_false]
      exact ih post sec acc seen h1 h2

/-- C7: the three extraction strategies run in a fixed priority order —
strategy (b) runs only when (a) yields nothing and strategy (c) only when
both (a) and (b) yield nothing; strategy (b) pairs the truetype URLs, in
their order of appearance, with the assumed default weight sequence
300, 400, 700; and strategy (c) skips every section that declares a
unicode range other than the latin one. -/
theorem c7_strategy_priority :
    (∀ css : Str,
      (strategy1 css ≠ [] → parseTTFUrlsFromCSS css = strategy1 css)
      ∧ (strategy1 css = [] → strategy2 css ≠ [] → parseTTFUrlsFromCSS css = strategy2 css)
      ∧ (strategy1 css = [] → strategy2 css = [] → parseTTFUrlsFromCSS css = strategy3 css))
    ∧ (∀ css : Str,
      strategy2 css = List.zipWith WUrl.mk wseq ((truetypeUrls css).take 3))
    ∧ (∀ (pre post : List Str) (sec : Str) (acc : List WUrl) (seen : List Str),
      containsSub sec "unicode-range".data = true →
      containsSub sec "U+0000-00FF".data = false →
      scanP3Sections (pre ++ sec :: post) acc seen = scanP3Sections (pre ++ post) acc seen) := by
  refine ⟨?_, ?_, scanP3_skips_nonlatin⟩
  · intro css
    refine ⟨?_, ?_, ?_⟩
    · intro h1
      replace h1 : (scanP1From css [] []).1 ≠ [] := h1
      have h1f : ((scanP1From css [] []).1.length == 0) = false := by
        rw [beq_eq_false_iff_ne]
        simpa [List.length_eq_zero] using h1
      unfold parseTTFUrlsFromCSS
      simp only [h1f, Bool.false_eq_true, if_false]
      rfl
    · intro h1 h2
      replace h1 : (scanP1From css [] []).1 = [] := h1
      replace h2 : (scanP2From css [] []).1 ≠ [] := h2
      have hseen : (scanP1From css [] []).2 = [] := scanP1go_seen (css.length + 1) css [] [] h1
      have h2f : ((scanP2From css [] []).1.length == 0) = false := by
        rw [beq_eq_false_iff_ne]
        simpa [List.length_eq_zero] using h2
      unfold parseTTFUrlsFromCSS
      simp only [h1, hseen, List.length_nil, beq_self_eq_true, eq_self_iff_true, if_true,
        h2f, Bool.false_eq_true, if_false]
      rfl
    · intro h1 h2
      replace h1 : (scanP1From css [] []).1 = [] := h1
      replace h2 : (scanP2From css [] []).1 = [] := h2
      have hseen1 : (scanP1From css [] []).2 = [] := scanP1go_seen (css.length + 1) css [] [] h1
      have hseen2 : (scanP2From css [] []).2 = [] := scanP2go_seen (css.length + 1) css [] [] 0 h2
      unfold parseTTFUrlsFromCSS
      simp only [h1, hseen1, List.length_nil, beq_self_eq_true, eq_self_iff_true, if_true,
        h2, hseen2]
      rfl
  · intro css
    show (scanP2go (css.length + 1) css [] [] 0).1 = _
    have hz := scanP2go_zip (css.length + 1) css 0 []
    simpa [truetypeUrls] using hz

/-- A manifest with truetype-format URLs but no explicit weight declaration
(strategy (a) yields nothing, strategy (b) applies). -/
def css7 : Str :=
  ("src: url(https://fonts.gstatic.com/a.ttf) format(\"truetype\") " ++
   "src: url(https://fonts.gstatic.com/b.ttf) format(\"truetype\")").data

/-- Witness for C7 at concrete inputs. -/
theorem c7_strategy_priority_witness :
    strategy1 css7 = [] ∧ strategy2 css7 ≠ []
    ∧ parseTTFUrlsFromCSS css7 = strategy2 css7
    ∧ strategy2 css7 = List.zipWith WUrl.mk wseq ((truetypeUrls css7).take 3)
    ∧ scanP3Sections (["x".data] ++ "unicode-range: U+0400".data :: []) [] []
        = scanP3Sections (["x".data] ++ []) [] [] :=
  ⟨by decide, by decide,
   (c7_strategy_priority.1 css7).2.1 (by decide) (by decide),
   c7_strategy_priority.2.1 css7,
   c7_strategy_priority.2.2 ["x".data] [] "unicode-range: U+0400".data [] []
     (by decide) (by decide)⟩

/-! ### Claim C4: disk-first -/

/-- A state holding a valid pre-populated cache file for weight 400 of
`Roboto`, with empty in-memory caches (fresh process). -/
def stC4 : St :=
  initSt { emptyWorld with
    files := [(variantPath "Roboto".data "400".data, ⟨60000, true⟩)],
    cacheDirExists := true }

set_option maxHeartbeats 2000000 in
/-- Counterexample to C4 as stated: for the Name-sourced identity `Roboto`
with a valid variant file already at its expected cache path, the named-source
tier still fails when every network fetch throws — with an empty manifest
cache the variant-URL list cannot be obtained, so the disk file alone is not
sufficient. -/
theorem c4_counterexample :
    lookupA stC4.world.files (variantPath "Roboto".data "400".data) = some ⟨60000, true⟩
    ∧ (downloadGoogleFontDirect "Roboto".data envNoNet stC4).1 = Except.ok false := by
  decide

theorem downloadVariantG_cached (fontName safeFilename : Str) (wu : WUrl) (env : Env) (st : St)
    (fi : FileInfo)
    (hf : lookupA st.world.files (variantPath safeFilename wu.weight) = some fi)
    (hv : fi.valid = true) :
    downloadVariantG fontName safeFilename wu env st
      = (Except.ok true,
         { st with
           world := { st.world with registered := st.world.registered
             ++ [(variantPath safeFilename wu.weight, fontName)] },
           trace := st.trace ++ [Ev.reg (variantPath safeFilename wu.weight) fontName] }) := by
  simp [downloadVariantG, existsF, hf, hv, registerPath, bind_run, pure_run, tryCatchM_run]

theorem downloadVariantsG_cached (fontName safeFilename : Str) :
    ∀ (urls : List WUrl) (env : Env) (st : St),
    (∀ wu ∈ urls, Option.map FileInfo.valid
      (lookupA st.world.files (variantPath safeFilename wu.weight)) = some true) →
    ∃ st2, downloadVariantsG fontName safeFilename urls env st = (Except.ok urls.length, st2)
      ∧ st2.world.files = st.world.files
      ∧ st2.loader = st.loader
      ∧ st2.fetchCount = st.fetchCount := by
  intro urls
  induction urls with
  | nil =>
    intro env st _
    exact ⟨st, by simp [downloadVariantsG, pure_run], rfl, rfl, rfl⟩
  | cons wu rest ih =>
    intro env st hall
    have hhead := hall wu (List.mem_cons_self wu rest)
    cases hl : lookupA st.world.files (variantPath safeFilename wu.weight) with
    | none => rw [hl] at hhead; simp at hhead
    | some fi =>
      rw [hl] at hhead
      simp only [Option.map_some'] at hhead
      have hhv : fi.valid = true := by
        cases hhead0 : fi.valid
        · rw [hhead0] at hhead; simp at hhead
        · rfl
      have hstep := downloadVariantG_cached fontName safeFilename wu env st fi hl hhv
      obtain ⟨st2, hrec, hfiles, hloader, hfc⟩ := ih env
        { st with
          world := { st.world with registered := st.world.registered
            ++ [(variantPath safeFilename wu.weight, fontName)] },
          trace := st.trace ++ [Ev.reg (variantPath safeFilename wu.weight) fontName] }
        (by intro wu2 hm; exact hall wu2 (List.mem_cons_of_mem wu hm))
      refine ⟨st2, ?_, by simpa using hfiles, by simpa using hloader, by simpa using hfc⟩
      simp only [downloadVariantsG, bind_run, hstep, hrec, pure_run, List.length_cons]
      have h1n : 1 + rest.length = rest.length + 1 := by omega
      simp [h1n]

/-- C4 (amended): a pre-populated valid cache file alone is sufficient only
where the tier consults the disk before the network — (i) for a URL-source
direct binary, the cached file is registered and the tier succeeds with no
fetch at all (the trace gains only the registration, the state no fetch
count); (ii) for a Name-source identity the disk file suffices only together
with an unexpired manifest-cache entry listing its variants: then the tier
succeeds without any network activity even though every fetch would throw.
With an empty manifest cache a Name-source resolution must fetch the manifest
and therefore can fail despite the valid disk file. -/
theorem c4_disk_first_amended :
    (∀ (env : Env) (st : St) (fontName fontUrl : Str) (fi : FileInfo),
      containsSub fontUrl "fonts.googleapis.com/css".data = false →
      containsSub fontUrl ".css".data = false →
      lookupA st.world.files (customFontPath fontName fontUrl) = some fi →
      fi.valid = true →
      downloadCustomFont fontName fontUrl env st
        = (Except.ok true,
           { st with
             world := { st.world with registered := st.world.registered
               ++ [(customFontPath fontName fontUrl, cleanName fontName)] },
             loader := { st.loader with
               downloadedFonts := insertA
                 (insertA st.loader.downloadedFonts fontName (customFontPath fontName fontUrl))
                 (cleanName fontName) (customFontPath fontName fontUrl) },
             trace := st.trace
               ++ [Ev.reg (customFontPath fontName fontUrl) (cleanName fontName)] }))
    ∧ (∀ (env : Env) (st : St) (fontName : Str) (urls : List WUrl) (ts : Nat),
      env.fsE = (fun _ => none) →
      lookupA st.loader.fontMetadataCache fontName = some ⟨urls, ts⟩ →
      env.now - ts < CACHE_TTL →
      0 < urls.length →
      (∀ wu ∈ urls, Option.map FileInfo.valid
        (lookupA st.world.files
          (variantPath (sanitizeName (stripQuotes fontName)) wu.weight)) = some true) →
      (downloadGoogleFontDirect fontName env st).1 = Except.ok true
      ∧ (downloadGoogleFontDirect fontName env st).2.fetchCount = st.fetchCount) := by
  constructor
  · intro env st fontName fontUrl fi hcss1 hcss2 hf hv
    simp [downloadCustomFont, hcss1, hcss2, hf, hv, registerPath, existsF,
      setDownloaded, modLoader, bind_run, pure_run, modifyS_run, tryCatchM_run]
  · intro env st fontName urls ts henv hmeta hfresh hpos hfiles
    have hnil : urls ≠ [] := List.ne_nil_of_length_pos hpos
    have hgu : googleGetUrls fontName (collapseWsTo '+' (stripQuotes fontName)) env st
        = (Except.ok (some urls), st) := by
      simp [googleGetUrls, metaConsult, bind_run, getS_run, readE, pure_run, hmeta,
        hfresh, hnil]
    have hmk : mkdirCache env st
        = (Except.ok (),
           { st with
             world := { st.world with cacheDirExists := true },
             trace := st.trace ++ [Ev.fsMkdir],
             fsCount := st.fsCount + 1 }) := by
      simp [mkdirCache, henv]
    obtain ⟨st2, hv, hfiles2, hloader2, hfc2⟩ := downloadVariantsG_cached fontName
      (sanitizeName (stripQuotes fontName)) urls env
      { st with
        world := { st.world with cacheDirExists := true },
        trace := st.trace ++ [Ev.fsMkdir],
        fsCount := st.fsCount + 1 }
      (by intro wu hm; exact hfiles wu hm)
    constructor
    · simp [downloadGoogleFontDirect, googleDownloadPhase, tryCatchM_run, bind_run,
        hgu, hmk, hv, hpos, pure_run, setDownloaded, modLoader, modifyS_run]
    · simp [downloadGoogleFontDirect, googleDownloadPhase, tryCatchM_run, bind_run,
        hgu, hmk, hv, hpos, pure_run, setDownloaded, modLoader, modifyS_run, hfc2]

/-- Witness for C4 (amended) at concrete inputs: a throwing network, a valid
`Roboto-400.ttf` on disk, and a fresh manifest-cache entry naming it. -/
theorem c4_disk_first_amended_witness :
    (downloadCustomFont "Brand".data "https://cdn.x.com/brand.ttf".data envNoNet
      (initSt { emptyWorld with
        files := [(customFontPath "Brand".data "https://cdn.x.com/brand.ttf".data,
          ⟨60000, true⟩)] })).1 = Except.ok true
    ∧ (downloadGoogleFontDirect "Roboto".data envNoNet
        { stC4 with loader := { initLoader with fontMetadataCache := [("Roboto".data,
          ⟨[⟨"400".data, "https://fonts.gstatic.com/r4.ttf".data⟩], 0⟩)] } }).1
      = Except.ok true
    ∧ (downloadGoogleFontDirect "Roboto".data envNoNet
        { stC4 with loader := { initLoader with fontMetadataCache := [("Roboto".data,
          ⟨[⟨"400".data, "https://fonts.gstatic.com/r4.ttf".data⟩], 0⟩)] } }).2.fetchCount
      = ({ stC4 with loader := { initLoader with fontMetadataCache := [("Roboto".data,
          ⟨[⟨"400".data, "https://fonts.gstatic.com/r4.ttf".data⟩], 0⟩)] } } : St).fetchCount := by
  refine ⟨?_, ?_, ?_⟩
  · rw [(c4_disk_first_amended.1 envNoNet
      (initSt { emptyWorld with
        files := [(customFontPath "Brand".data "https://cdn.x.com/brand.ttf".data,
          ⟨60000, true⟩)] })
      "Brand".data "https://cdn.x.com/brand.ttf".data ⟨60000, true⟩
      (by decide) (by decide) (by decide) (by decide))]
  · exact (c4_disk_first_amended.2 envNoNet
      { stC4 with loader := { initLoader with fontMetadataCache := [("Roboto".data,
        ⟨[⟨"400".data, "https://fonts.gstatic.com/r4.ttf".data⟩], 0⟩)] } }
      "Roboto".data [⟨"400".data, "https://fonts.gstatic.com/r4.ttf".data⟩] 0
      rfl (by decide) (by decide) (by decide) (by decide)).1
  · exact (c4_disk_first_amended.2 envNoNet
      { stC4 with loader := { initLoader with fontMetadataCache := [("Roboto".data,
        ⟨[⟨"400".data, "https://fonts.gstatic.com/r4.ttf".data⟩], 0⟩)] } }
      "Roboto".data [⟨"400".data, "https://fonts.gstatic.com/r4.ttf".data⟩] 0
      rfl (by decide) (by decide) (by decide) (by decide)).2

/-! ### Claim C5: manifest-cache TTL expiry

The TTL gate lives in `metaConsult` (the head of `downloadGoogleFontDirect`);
the manifest re-derivation after a stale delete goes through
`fetchGoogleFontCSS`, whose own `cssCache` has no TTL.  The lemmas below
establish trace monotonicity (every operation only appends events) and the
identity of the first event a computation records. -/

/-- A computation only ever appends to the event trace. -/
def TraceExt {α : Type} (m : M α) : Prop :=
  ∀ (env : Env) (s : St), ∃ t, (m env s).2.trace = s.trace ++ t

theorem tm_pure {α : Type} (a : α) : TraceExt (pure a : M α) :=
  fun _ s => ⟨[], by simp [pure_run]⟩

theorem tm_bind {α β : Type} {m : M α} {k : α → M β}
    (hm : TraceExt m) (hk : ∀ a, TraceExt (k a)) : TraceExt (m >>= k) := by
  intro env s
  obtain ⟨t1, h1⟩ := hm env s
  rw [bind_run]
  rcases hr : m env s with ⟨r, s1⟩
  rw [hr] at h1
  simp only [] at h1
  cases r with
  | ok a =>
    obtain ⟨t2, h2⟩ := hk a env s1
    exact ⟨t1 ++ t2, by simp [h2, h1]⟩
  | error e => exact ⟨t1, by simpa using h1⟩

theorem tm_tryCatch {α : Type} {m : M α} {h : Str → M α}
    (hm : TraceExt m) (hh : ∀ e, TraceExt (h e)) : TraceExt (tryCatchM m h) := by
  intro env s
  obtain ⟨t1, h1⟩ := hm env s
  rw [tryCatchM_run]
  rcases hr : m env s with ⟨r, s1⟩
  rw [hr] at h1
  simp only [] at h1
  cases r with
  | ok a => exact ⟨t1, by simpa using h1⟩
  | error e =>
    obtain ⟨t2, h2⟩ := hh e env s1
    exact ⟨t1 ++ t2, by simp [h2, h1]⟩

theorem tm_ite {α : Type} (c : Prop) [Decidable c] {m1 m2 : M α}
    (h1 : TraceExt m1) (h2 : TraceExt m2) : TraceExt (if c then m1 else m2) := by
  by_cases hc : c
  · rwa [if_pos hc]
  · rwa [if_neg hc]

theorem tm_mthrow {α : Type} (e : Str) : TraceExt (mthrow e : M α) :=
  fun _ s => ⟨[], by simp [mthrow]⟩

theorem tm_modLoader (f : LoaderState → LoaderState) : TraceExt (modLoader f) :=
  fun _ s => ⟨[], by simp [modLoader, modifyS]⟩

theorem tm_setDownloaded (k v : Str) : TraceExt (setDownloaded k v) :=
  tm_modLoader _

theorem tm_existsF (p : Str) : TraceExt (existsF p) :=
  fun _ s => ⟨[], by simp [existsF]⟩

theorem tm_fetchOnce (url : Str) : TraceExt (fetchOnce url) := by
  intro env s
  refine ⟨[Ev.fetch url], ?_⟩
  unfold fetchOnce
  cases h : env.fetchE s.fetchCount url <;> simp [h]

theorem tm_mkdirCache : TraceExt mkdirCache := by
  intro env s
  refine ⟨[Ev.fsMkdir], ?_⟩
  unfold mkdirCache
  cases h : env.fsE s.fsCount <;> simp [h]

theorem tm_writeF (p : Str) (fi : FileInfo) : TraceExt (writeF p fi) := by
  intro env s
  refine ⟨[Ev.fsWrite p], ?_⟩
  unfold writeF
  cases h : env.fsE s.fsCount <;> simp [h]

theorem tm_unlinkF (p : Str) : TraceExt (unlinkF p) := by
  intro env s
  refine ⟨[Ev.fsUnlink p], ?_⟩
  unfold unlinkF
  cases h : env.fsE s.fsCount with
  | none => cases h2 : lookupA s.world.files p <;> simp [h, h2]
  | some e => simp [h]

theorem tm_registerPath (p nm : Str) : TraceExt (registerPath p nm) := by
  intro env s
  refine ⟨[Ev.reg p nm], ?_⟩
  unfold registerPath
  cases h : lookupA s.world.files p with
  | none => simp [h]
  | some fi => cases hv : fi.valid <;> simp [h, hv]

theorem tm_fetchAttempts : ∀ (n : Nat) (url : Str), TraceExt (fetchAttempts n url)
  | 0, _ => tm_mthrow _
  | 1, url => tm_fetchOnce url
  | n + 2, url => tm_tryCatch (tm_fetchOnce url) (fun _ => tm_fetchAttempts (n + 1) url)

theorem tm_fetchWithRetry (url : Str) : TraceExt (fetchWithRetry url) :=
  tm_fetchAttempts 3 url

theorem tm_fetchCSSLoop : ∀ (ck : Str) (us : List Str), TraceExt (fetchCSSLoop ck us)
  | _, [] => tm_pure none
  | ck, url :: rest => by
    unfold fetchCSSLoop
    apply tm_bind
    · apply tm_tryCatch
      · apply tm_bind (tm_fetchWithRetry url)
        intro resp
        apply tm_ite
        · exact tm_bind (tm_modLoader _) (fun _ => tm_pure _)
        · exact tm_pure _
      · intro e; exact tm_pure _
    · intro r
      cases r with
      | some css => exact tm_pure _
      | none => exact tm_fetchCSSLoop ck rest

theorem tm_downloadVariantG (fontName safeFilename : Str) (wu : WUrl) :
    TraceExt (downloadVariantG fontName safeFilename wu) := by
  have hfetch : TraceExt (tryCatchM
      (do
        let resp ← fetchWithRetry wu.url
        if !resp.ok then pure false
        else if resp.byteLength < 10000 then pure false
        else do
          writeF (variantPath safeFilename wu.weight) ⟨resp.byteLength, resp.validFont⟩
          registerPath (variantPath safeFilename wu.weight) fontName
          pure true)
      (fun _ => pure false)) := by
    apply tm_tryCatch
    · apply tm_bind (tm_fetchWithRetry _)
      intro resp
      apply tm_ite
      · exact tm_pure _
      · apply tm_ite
        · exact tm_pure _
        · exact tm_bind (tm_writeF _ _)
            (fun _ => tm_bind (tm_registerPath _ _) (fun _ => tm_pure _))
    · intro e; exact tm_pure _
  simp only [downloadVariantG]
  apply tm_bind (tm_existsF _)
  intro ex
  apply tm_ite
  · apply tm_bind
    · exact tm_tryCatch (tm_bind (tm_registerPath _ _) (fun _ => tm_pure _))
        (fun _ => tm_bind (tm_tryCatch (tm_unlinkF _) (fun _ => tm_pure _))
          (fun _ => tm_pure _))
    · intro y
      apply tm_ite
      · exact tm_pure _
      · exact hfetch
  · apply tm_bind (tm_pure false)
    intro y
    apply tm_ite
    · exact tm_pure _
    · exact hfetch

theorem tm_downloadVariantsG (fontName safeFilename : Str) :
    ∀ (us : List WUrl), TraceExt (downloadVariantsG fontName safeFilename us)
  | [] => tm_pure 0
  | wu :: rest => by
    unfold downloadVariantsG
    apply tm_bind (tm_downloadVariantG fontName safeFilename wu)
    intro b
    apply tm_bind (tm_downloadVariantsG fontName safeFilename rest)
    intro n
    exact tm_pure _

theorem tm_googleDownloadPhase (fontName safeFilename : Str) (urls : List WUrl) :
    TraceExt (googleDownloadPhase fontName safeFilename urls) := by
  unfold googleDownloadPhase
  apply tm_bind tm_mkdirCache
  intro u
  apply tm_bind (tm_downloadVariantsG fontName safeFilename urls)
  intro n
  apply tm_ite
  · exact tm_bind (tm_setDownloaded _ _) (fun _ => tm_pure _)
  · exact tm_pure _

/-- The first event a computation appends to the trace is `ev` (and it
records at least that one). -/
def FirstEv {α : Type} (m : M α) (ev : Ev) : Prop :=
  ∀ (env : Env) (s : St), ∃ t, (m env s).2.trace = s.trace ++ ev :: t

theorem fe_fetchOnce (url : Str) : FirstEv (fetchOnce url) (Ev.fetch url) := by
  intro env s
  refine ⟨[], ?_⟩
  unfold fetchOnce
  cases h : env.fetchE s.fetchCount url <;> simp [h]

theorem fe_bind {α β : Type} {m : M α} {k : α → M β} {ev : Ev}
    (hm : FirstEv m ev) (hk : ∀ a, TraceExt (k a)) : FirstEv (m >>= k) ev := by
  intro env s
  obtain ⟨t1, h1⟩ := hm env s
  rw [bind_run]
  rcases hr : m env s with ⟨r, s1⟩
  rw [hr] at h1
  simp only [] at h1
  cases r with
  | ok a =>
    obtain ⟨t2, h2⟩ := hk a env s1
    exact ⟨t1 ++ t2, by simp [h2, h1]⟩
  | error e => exact ⟨t1, by simpa using h1⟩

theorem fe_tryCatch {α : Type} {m : M α} {h : Str → M α} {ev : Ev}
    (hm : FirstEv m ev) (hh : ∀ e, TraceExt (h e)) : FirstEv (tryCatchM m h) ev := by
  intro env s
  obtain ⟨t1, h1⟩ := hm env s
  rw [tryCatchM_run]
  rcases hr : m env s with ⟨r, s1⟩
  rw [hr] at h1
  simp only [] at h1
  cases r with
  | ok a => exact ⟨t1, by simpa using h1⟩
  | error e =>
    obtain ⟨t2, h2⟩ := hh e env s1
    exact ⟨t1 ++ t2, by simp [h2, h1]⟩

theorem fe_fetchWithRetry (url : Str) : FirstEv (fetchWithRetry url) (Ev.fetch url) :=
  fe_tryCatch (fe_fetchOnce url) (fun _ => tm_fetchAttempts 2 url)

theorem fe_fetchCSSLoop (ck u1 : Str) (rest : List Str) :
    FirstEv (fetchCSSLoop ck (u1 :: rest)) (Ev.fetch u1) := by
  unfold fetchCSSLoop
  apply fe_bind
  · apply fe_tryCatch
    · apply fe_bind (fe_fetchWithRetry u1)
      intro resp
      apply tm_ite
      · exact tm_bind (tm_modLoader _) (fun _ => tm_pure _)
      · exact tm_pure _
    · intro e; exact tm_pure _
  · intro r
    cases r with
    | some css => exact tm_pure _
    | none => exact tm_fetchCSSLoop ck rest

/-- On a `cssCache` miss, the first event of `fetchGoogleFontCSS` is a fetch
of the first manifest endpoint. -/
theorem fetchGoogleFontCSS_miss (fontFamily : Str) (env : Env) (s : St)
    (hmiss : lookupA s.loader.cssCache (cssCacheKey fontFamily) = none) :
    ∃ t, (fetchGoogleFontCSS fontFamily env s).2.trace
      = s.trace ++ Ev.fetch (cssUrl1 fontFamily) :: t := by
  have h1 : fetchGoogleFontCSS fontFamily env s
      = fetchCSSLoop (cssCacheKey fontFamily)
          [cssUrl1 fontFamily, cssUrl2 fontFamily, cssUrl3 fontFamily] env s := by
    simp [fetchGoogleFontCSS, bind_run, getS_run, hmiss]
  rw [h1]
  exact fe_fetchCSSLoop (cssCacheKey fontFamily) (cssUrl1 fontFamily)
    [cssUrl2 fontFamily, cssUrl3 fontFamily] env s

/-- A stale metadata entry (age at least `CACHE_TTL`) is deleted and treated
as a miss: `metaConsult` returns the empty list. -/
theorem metaConsult_stale (env : Env) (st : St) (fontName : Str)
    (urls : List WUrl) (ts : Nat)
    (hmeta : lookupA st.loader.fontMetadataCache fontName = some ⟨urls, ts⟩)
    (hstale : CACHE_TTL ≤ env.now - ts) :
    metaConsult fontName env st
      = (Except.ok [], { st with loader := { st.loader with
          fontMetadataCache := eraseA st.loader.fontMetadataCache fontName } }) := by
  have hns : ¬ (env.now - ts < CACHE_TTL) := not_lt.mpr hstale
  simp [metaConsult, bind_run, getS_run, readE, pure_run, modLoader, modifyS_run,
    hmeta, hns]

/-- Stale metadata and a cold css cache: the first event of the manifest
phase is a network fetch of the first manifest endpoint. -/
theorem googleGetUrls_stale_miss (fontName fontFamily : Str) (env : Env) (st : St)
    (urls : List WUrl) (ts : Nat)
    (hmeta : lookupA st.loader.fontMetadataCache fontName = some ⟨urls, ts⟩)
    (hstale : CACHE_TTL ≤ env.now - ts)
    (hmiss : lookupA st.loader.cssCache (cssCacheKey fontFamily) = none) :
    ∃ t, (googleGetUrls fontName fontFamily env st).2.trace
      = st.trace ++ Ev.fetch (cssUrl1 fontFamily) :: t := by
  have hmc := metaConsult_stale env st fontName urls ts hmeta hstale
  obtain ⟨t1, h1⟩ := fetchGoogleFontCSS_miss fontFamily env
    { st with loader := { st.loader with
        fontMetadataCache := eraseA st.loader.fontMetadataCache fontName } } hmiss
  rcases hc : fetchGoogleFontCSS fontFamily env
    { st with loader := { st.loader with
        fontMetadataCache := eraseA st.loader.fontMetadataCache fontName } } with ⟨rc, sc⟩
  rw [hc] at h1
  simp only [] at h1
  simp only [googleGetUrls, bind_run, readE, hmc, pure_run, List.length_nil,
    Nat.zero_mod, beq_self_eq_true, if_true, hc]
  cases rc with
  | error e => exact ⟨t1, by simpa using h1⟩
  | ok copt =>
    cases copt with
    | none => exact ⟨t1, by simpa [pure_run] using h1⟩
    | some css =>
      by_cases hp : (parseTTFUrlsFromCSS css).length = 0
      · exact ⟨t1, by simpa [pure_run, hp] using h1⟩
      · refine ⟨t1, ?_⟩
        simp [pure_run, hp, bind_run, modLoader, modifyS_run, h1]

/-- Stale metadata and a cold css cache: the first event the whole Google
direct-download resolution records is a fetch of the first manifest
endpoint. -/
theorem dgfd_stale_miss (fontName : Str) (env : Env) (st : St)
    (urls : List WUrl) (ts : Nat)
    (hmeta : lookupA st.loader.fontMetadataCache fontName = some ⟨urls, ts⟩)
    (hstale : CACHE_TTL ≤ env.now - ts)
    (hmiss : lookupA st.loader.cssCache
      (cssCacheKey (collapseWsTo '+' (stripQuotes fontName))) = none) :
    ∃ t, (downloadGoogleFontDirect fontName env st).2.trace
      = st.trace ++ Ev.fetch (cssUrl1 (collapseWsTo '+' (stripQuotes fontName))) :: t := by
  obtain ⟨t1, h1⟩ := googleGetUrls_stale_miss fontName
    (collapseWsTo '+' (stripQuotes fontName)) env st urls ts hmeta hstale hmiss
  rcases hg : googleGetUrls fontName (collapseWsTo '+' (stripQuotes fontName)) env st
    with ⟨rg, sg⟩
  rw [hg] at h1
  simp only [] at h1
  simp only [downloadGoogleFontDirect, tryCatchM_run, bind_run, hg]
  cases rg with
  | error e => exact ⟨t1, by simpa [pure_run] using h1⟩
  | ok uopt =>
    cases uopt with
    | none => exact ⟨t1, by simpa [pure_run] using h1⟩
    | some us =>
      obtain ⟨t2, h2⟩ := tm_googleDownloadPhase fontName
        (sanitizeName (stripQuotes fontName)) us env sg
      rcases hpz : googleDownloadPhase fontName (sanitizeName (stripQuotes fontName)) us env sg
        with ⟨rp, sp⟩
      rw [hpz] at h2
      simp only [] at h2
      cases rp with
      | ok b => exact ⟨t1 ++ t2, by simp [hpz, h2, h1]⟩
      | error e => exact ⟨t1 ++ t2, by simp [hpz, pure_run, h2, h1]⟩

/-- A one-face manifest text naming a single 400-weight gstatic variant URL. -/
def css5 : Str := "@font-face \x7b font-weight: 400; src: url(https://fonts.gstatic.com/lato.ttf); \x7d".data

/-- A network where the manifest endpoints serve `css5` and every other URL
serves an undersized (500-byte) payload; the clock reads 0. -/
def env5a : Env :=
  ⟨fun _ u => if startsWithL u "https://fonts.googleapis.com/".data
      then Except.ok ⟨true, 200, css5, 2000, true⟩
      else Except.ok ⟨true, 200, [], 500, true⟩,
   fun _ => none, 0⟩

/-- A dead network (every fetch throws) 25 hours later. -/
def env5b : Env := ⟨fun _ _ => Except.error "offline".data, fun _ => none, 90000000⟩

/-- The single variant URL `css5` names. -/
def u5bin : Str := "https://fonts.gstatic.com/lato.ttf".data

/-- The state a first Lato resolution under `env5a` reaches (proved below):
css text cached, a metadata entry of timestamp 0, and no font on disk, the
one variant payload having been undersized. -/
def st5mid : St :=
  { world := ⟨[], [], false, true⟩,
    loader := ⟨[], [], [], [(cssCacheKey "Lato".data, css5)],
      [("Lato".data, ⟨[⟨"400".data, u5bin⟩], 0⟩)]⟩,
    trace := [Ev.fetch (cssUrl1 "Lato".data), Ev.fsMkdir, Ev.fetch u5bin],
    fetchCount := 2, fsCount := 1, nextId := 0 }

/-- Is an event a fetch of a `fonts.googleapis.com` manifest endpoint? -/
def isManifestFetch : Ev → Bool
  | Ev.fetch u => startsWithL u "https://fonts.googleapis.com/".data
  | _ => false

/-- Is an event any network fetch at all? -/
def isFetchEv : Ev → Bool
  | Ev.fetch _ => true
  | _ => false

/-- `st5mid` with the css-text cache emptied. -/
def st5miss : St :=
  { st5mid with loader := { st5mid.loader with cssCache := [] } }

set_option maxHeartbeats 2000000 in
/-- C5 is refuted as stated: a stale manifest-cache entry does not force a
fresh manifest fetch over the network.  A first resolution of Lato under
`env5a` reaches `st5mid` (conjunct 1): the manifest text sits in `cssCache`
(which has no TTL) and the metadata entry carries timestamp 0.  A second
resolution 25 hours later under a dead network deletes the stale entry and
re-derives the variant list from the cached css text: its trace extension
holds no fetch of a `fonts.googleapis.com` endpoint (conjunct 5) even though
three binary fetch attempts do occur (conjunct 6), and the metadata entry is
re-written from the cached text with the new clock (conjunct 7). -/
theorem c5_counterexample :
    downloadGoogleFontDirect "Lato".data env5a (initSt emptyWorld)
      = (Except.ok false, st5mid)
    ∧ CACHE_TTL ≤ env5b.now - 0
    ∧ lookupA st5mid.loader.fontMetadataCache "Lato".data
        = some ⟨[⟨"400".data, u5bin⟩], 0⟩
    ∧ (downloadGoogleFontDirect "Lato".data env5b st5mid).1 = Except.ok false
    ∧ ((downloadGoogleFontDirect "Lato".data env5b st5mid).2.trace.drop
        st5mid.trace.length).filter isManifestFetch = []
    ∧ ((downloadGoogleFontDirect "Lato".data env5b st5mid).2.trace.drop
        st5mid.trace.length).countP (fun e => isFetchEv e) = 3
    ∧ lookupA (downloadGoogleFontDirect "Lato".data env5b st5mid).2.loader.fontMetadataCache
        "Lato".data = some ⟨[⟨"400".data, u5bin⟩], 90000000⟩ := by
  refine ⟨by decide, by decide, by decide, by decide, by decide, by decide, by decide⟩

set_option maxHeartbeats 2000000 in
/-- C5 (amended): a manifest-cache entry of age at least the TTL is treated
as a cache miss: the consultation deletes the stale entry and yields the
empty list, so the stale variant-URL list is never reused (conjunct 1).  A
fresh manifest fetch over the network occurs exactly when the css-text cache
also misses: in that case the first event the resolution records is a fetch
of the first manifest endpoint (conjunct 2); when the css text is cached
(that cache has no TTL), the variant list is re-derived from the cached text
with no fetch of any manifest endpoint, the entry being re-written with the
current clock (conjuncts 3 and 4, at the reachable state `st5mid`). -/
theorem c5_ttl_expiry_amended :
    (∀ (env : Env) (st : St) (fontName : Str) (urls : List WUrl) (ts : Nat),
      lookupA st.loader.fontMetadataCache fontName = some ⟨urls, ts⟩ →
      CACHE_TTL ≤ env.now - ts →
      metaConsult fontName env st
        = (Except.ok [], { st with loader := { st.loader with
            fontMetadataCache := eraseA st.loader.fontMetadataCache fontName } }))
    ∧ (∀ (env : Env) (st : St) (fontName : Str) (urls : List WUrl) (ts : Nat),
      lookupA st.loader.fontMetadataCache fontName = some ⟨urls, ts⟩ →
      CACHE_TTL ≤ env.now - ts →
      lookupA st.loader.cssCache
        (cssCacheKey (collapseWsTo '+' (stripQuotes fontName))) = none →
      ∃ t, (downloadGoogleFontDirect fontName env st).2.trace
        = st.trace ++ Ev.fetch (cssUrl1 (collapseWsTo '+' (stripQuotes fontName))) :: t)
    ∧ ((downloadGoogleFontDirect "Lato".data env5b st5mid).2.trace.drop
        st5mid.trace.length).filter isManifestFetch = []
    ∧ lookupA (downloadGoogleFontDirect "Lato".data env5b st5mid).2.loader.fontMetadataCache
        "Lato".data = some ⟨[⟨"400".data, u5bin⟩], env5b.now⟩ := by
  refine ⟨?_, ?_, by decide, by decide⟩
  · intro env st fontName urls ts hmeta hstale
    exact metaConsult_stale env st fontName urls ts hmeta hstale
  · intro env st fontName urls ts hmeta hstale hmiss
    exact dgfd_stale_miss fontName env st urls ts hmeta hstale hmiss

/-- Witness for C5 (amended) at concrete inputs: the stale Lato entry of
`st5mid` under the 25-hours-later dead network, and the same state with the
css cache emptied for the manifest-fetch conjunct. -/
theorem c5_ttl_expiry_amended_witness :
    (metaConsult "Lato".data env5b st5mid
      = (Except.ok [], { st5mid with loader := { st5mid.loader with
          fontMetadataCache := eraseA st5mid.loader.fontMetadataCache "Lato".data } }))
    ∧ (∃ t, (downloadGoogleFontDirect "Lato".data env5b st5miss).2.trace
        = st5miss.trace
          ++ Ev.fetch (cssUrl1 (collapseWsTo '+' (stripQuotes "Lato".data))) :: t) := by
  constructor
  · exact c5_ttl_expiry_amended.1 env5b st5mid "Lato".data
      [⟨"400".data, u5bin⟩] 0 (by decide) (by decide)
  · exact c5_ttl_expiry_amended.2.1 env5b st5miss "Lato".data
      [⟨"400".data, u5bin⟩] 0 (by decide) (by decide) (by decide)
